import Mathlib

/-!
Verification of the DesignRadar core: the semantic normalizer
(`toon-converter.ts`: `filterNode`, `filterFile`, `rgbaToHex`,
`simplifyFills`) and the structural diff engine (`differ.ts`:
`buildNodeMap`, `compareNodes`, `diffPage`, `diffSnapshots`).

The embedding models JavaScript runtime values with a JSON-like
inductive type `Val`.  JavaScript objects are association lists
(`List (String × Val)`) looked up by first match; a property whose
value is `undefined` is modelled as an absent binding (`Option Val`
at access sites).  JavaScript `Map` objects are association lists
built with insert-or-update semantics (`jsInsert`), which reproduces
both the lookup behaviour and the insertion-order iteration of `Map`.
Numbers are modelled as rationals; the source only manipulates them
with `*`, `+` and `Math.round`, all exact on the inputs of interest.
-/

set_option maxHeartbeats 1000000
set_option maxRecDepth 8192

namespace DesignRadar

/-- JSON-like JavaScript value: string, number, boolean, null, array
or object (ordered association list of fields). -/
inductive Val where
  | str : String → Val
  | num : ℚ → Val
  | bool : Bool → Val
  | null : Val
  | arr : List Val → Val
  | obj : List (String × Val) → Val

mutual

def Val.beq : Val → Val → Bool
  | .str a, .str b => a == b
  | .num a, .num b => a == b
  | .bool a, .bool b => a == b
  | .null, .null => true
  | .arr xs, .arr ys => Val.beqList xs ys
  | .obj xs, .obj ys => Val.beqPairs xs ys
  | _, _ => false

def Val.beqList : List Val → List Val → Bool
  | [], [] => true
  | x :: xs, y :: ys => Val.beq x y && Val.beqList xs ys
  | _, _ => false

def Val.beqPairs : List (String × Val) → List (String × Val) → Bool
  | [], [] => true
  | (k1, v1) :: xs, (k2, v2) :: ys =>
      k1 == k2 && Val.beq v1 v2 && Val.beqPairs xs ys
  | _, _ => false

end

mutual

theorem Val.beq_iff : ∀ a b : Val, Val.beq a b = true ↔ a = b
  | .str a, .str b => by simp [Val.beq]
  | .str _, .num _ => by simp [Val.beq]
  | .str _, .bool _ => by simp [Val.beq]
  | .str _, .null => by simp [Val.beq]
  | .str _, .arr _ => by simp [Val.beq]
  | .str _, .obj _ => by simp [Val.beq]
  | .num _, .str _ => by simp [Val.beq]
  | .num a, .num b => by simp [Val.beq]
  | .num _, .bool _ => by simp [Val.beq]
  | .num _, .null => by simp [Val.beq]
  | .num _, .arr _ => by simp [Val.beq]
  | .num _, .obj _ => by simp [Val.beq]
  | .bool _, .str _ => by simp [Val.beq]
  | .bool _, .num _ => by simp [Val.beq]
  | .bool a, .bool b => by simp [Val.beq]
  | .bool _, .null => by simp [Val.beq]
  | .bool _, .arr _ => by simp [Val.beq]
  | .bool _, .obj _ => by simp [Val.beq]
  | .null, .str _ => by simp [Val.beq]
  | .null, .num _ => by simp [Val.beq]
  | .null, .bool _ => by simp [Val.beq]
  | .null, .null => by simp [Val.beq]
  | .null, .arr _ => by simp [Val.beq]
  | .null, .obj _ => by simp [Val.beq]
  | .arr _, .str _ => by simp [Val.beq]
  | .arr _, .num _ => by simp [Val.beq]
  | .arr _, .bool _ => by simp [Val.beq]
  | .arr _, .null => by simp [Val.beq]
  | .arr xs, .arr ys => by
      simp only [Val.beq, Val.arr.injEq]
      exact Val.beqList_iff xs ys
  | .arr _, .obj _ => by simp [Val.beq]
  | .obj _, .str _ => by simp [Val.beq]
  | .obj _, .num _ => by simp [Val.beq]
  | .obj _, .bool _ => by simp [Val.beq]
  | .obj _, .null => by simp [Val.beq]
  | .obj _, .arr _ => by simp [Val.beq]
  | .obj xs, .obj ys => by
      simp only [Val.beq, Val.obj.injEq]
      exact Val.beqPairs_iff xs ys

theorem Val.beqList_iff : ∀ xs ys : List Val, Val.beqList xs ys = true ↔ xs = ys
  | [], [] => by simp [Val.beqList]
  | [], _ :: _ => by simp [Val.beqList]
  | _ :: _, [] => by simp [Val.beqList]
  | x :: xs, y :: ys => by
      simp only [Val.beqList, Bool.and_eq_true, List.cons.injEq]
      rw [Val.beq_iff x y, Val.beqList_iff xs ys]

theorem Val.beqPairs_iff :
    ∀ xs ys : List (String × Val), Val.beqPairs xs ys = true ↔ xs = ys
  | [], [] => by simp [Val.beqPairs]
  | [], _ :: _ => by simp [Val.beqPairs]
  | (_, _) :: _, [] => by simp [Val.beqPairs]
  | (k1, v1) :: xs, (k2, v2) :: ys => by
      simp only [Val.beqPairs, Bool.and_eq_true, List.cons.injEq, Prod.mk.injEq,
        beq_iff_eq]
      rw [Val.beq_iff v1 v2, Val.beqPairs_iff xs ys]

end

instance : DecidableEq Val := fun a b =>
  decidable_of_iff (Val.beq a b = true) (Val.beq_iff a b)

/-- First-match association-list lookup, the behaviour of reading a
property from a JavaScript object (objects never repeat keys, so the
first match is the only one on real inputs). -/
def alookup {κ β : Type} [DecidableEq κ] : List (κ × β) → κ → Option β
  | [], _ => none
  | (k, v) :: rest, key => if k = key then some v else alookup rest key

/-- Keys of an association list, in order. -/
def akeys {κ β : Type} (l : List (κ × β)) : List κ := l.map Prod.fst

/-- JavaScript `Map.prototype.set`: update the value in place when the
key is already present, otherwise append the new binding. -/
def jsInsert {κ β : Type} [DecidableEq κ] (m : List (κ × β)) (k : κ) (v : β) :
    List (κ × β) :=
  if (alookup m k).isSome then
    m.map (fun kv => if kv.1 = k then (k, v) else kv)
  else
    m ++ [(k, v)]

/-- Build a JavaScript `Map` from a sequence of key-value pairs
(`new Map(pairs)` / repeated `set` calls). -/
def jsMapOf {κ β : Type} [DecidableEq κ] (l : List (κ × β)) : List (κ × β) :=
  l.foldl (fun m kv => jsInsert m kv.1 kv.2) []

/-- JavaScript `new Set(list)` as an ordered duplicate-free list:
keeps the first occurrence of each element. -/
def jsSetList {κ : Type} [DecidableEq κ] (l : List κ) : List κ :=
  l.foldl (fun acc k => if k ∈ acc then acc else acc ++ [k]) []

/-- Property access `v.k` on a JavaScript value: field lookup on
objects, `undefined` (`none`) on every non-object. -/
def valField (v : Val) (k : String) : Option Val :=
  match v with
  | .obj kvs => alookup kvs k
  | _ => none

/-- JavaScript truthiness of a possibly-`undefined` value. -/
def jsTruthy : Option Val → Bool
  | none => false
  | some (.str s) => !(s == "")
  | some (.num q) => !(q == 0)
  | some (.bool b) => b
  | some .null => false
  | some (.arr _) => true
  | some (.obj _) => true

/-- JavaScript number-to-string conversion, exact on every number the
source produces (integers and terminating decimals).  The
non-terminating fallback cannot arise from the repository's inputs. -/
def numToJSString (q : ℚ) : String :=
  match (List.range 41).find? (fun k => (q * (10 : ℚ) ^ k).den == 1) with
  | some 0 => toString q.num
  | some k =>
      let m : Int := (q * (10 : ℚ) ^ k).num
      let s := toString m.natAbs
      let s := if s.length < k + 1 then
          String.mk (List.replicate (k + 1 - s.length) '0') ++ s
        else s
      (if m < 0 then "-" else "") ++
        (s.take (s.length - k)) ++ "." ++ (s.drop (s.length - k))
  | none => toString q.num ++ "/" ++ toString q.den

mutual

/-- JavaScript `String(v)` / template-literal interpolation. -/
def valToString : Val → String
  | .str s => s
  | .num q => numToJSString q
  | .bool b => if b then "true" else "false"
  | .null => "null"
  | .arr l => arrJoinParts l
  | .obj _ => "[object Object]"

/-- `Array.prototype.join(",")` used by array-to-string conversion:
`null` elements render as the empty string. -/
def arrJoinParts : List Val → String
  | [] => ""
  | [.null] => ""
  | [v] => valToString v
  | .null :: rest => "," ++ arrJoinParts rest
  | v :: rest => valToString v ++ "," ++ arrJoinParts rest

end

/-- Template-literal interpolation of a possibly-`undefined` value. -/
def jsDisplay : Option Val → String
  | none => "undefined"
  | some v => valToString v

/-- Escape of one character inside a JSON string literal (quotes and
backslashes; the source never feeds control characters through it). -/
def jsonEscChar (c : Char) : List Char :=
  if c = '"' then ['\\', '"'] else if c = '\\' then ['\\', '\\'] else [c]

/-- JSON string literal with quotes, as `JSON.stringify` renders it. -/
def jsonQuote (s : String) : String :=
  "\"" ++ String.mk (s.data.foldr (fun c acc => jsonEscChar c ++ acc) []) ++ "\""

mutual

/-- `JSON.stringify` over the value model. -/
def jsonStringify : Val → String
  | .str s => jsonQuote s
  | .num q => numToJSString q
  | .bool b => if b then "true" else "false"
  | .null => "null"
  | .arr l => "[" ++ jsonList l ++ "]"
  | .obj kvs => "\x7b" ++ jsonFields kvs ++ "\x7d"

def jsonList : List Val → String
  | [] => ""
  | [v] => jsonStringify v
  | v :: rest => jsonStringify v ++ "," ++ jsonList rest

def jsonFields : List (String × Val) → String
  | [] => ""
  | [(k, v)] => jsonQuote k ++ ":" ++ jsonStringify v
  | (k, v) :: rest => jsonQuote k ++ ":" ++ jsonStringify v ++ "," ++ jsonFields rest

end

/-- ASCII upper-casing of one character, the effect of
`String.prototype.toUpperCase` on the strings the source builds. -/
def upChar (c : Char) : Char :=
  if 'a' ≤ c ∧ c ≤ 'z' then Char.ofNat (c.toNat - 32) else c

/-- `s.toUpperCase()`. -/
def jsToUpper (s : String) : String := String.mk (s.data.map upChar)

/-- `Math.round`: round half toward positive infinity. -/
def jsRound (q : ℚ) : Int := Int.floor (q + 1 / 2)

/-- `n.toString(16)`: lowercase hexadecimal, minus sign for negatives. -/
def intHexLower (n : Int) : String :=
  if n < 0 then "-" ++ String.mk (Nat.toDigits 16 n.natAbs)
  else String.mk (Nat.toDigits 16 n.toNat)

/-- `s.padStart(2, "0")`. -/
def padStart2 (s : String) : String :=
  if 2 ≤ s.length then s else String.mk (List.replicate (2 - s.length) '0') ++ s

/-- Numeric read of a possibly-`undefined` value; non-numbers map to
`none` (the `NaN` path in JavaScript). -/
def getNum : Option Val → Option ℚ
  | some (.num q) => some q
  | _ => none

/-- One colour channel of `rgbaToHex`:
`Math.round(ch * 255).toString(16).padStart(2, "0")`; a missing or
non-numeric channel is the `NaN` arithmetic path. -/
def hexByte (o : Option ℚ) : String :=
  match o with
  | some q => padStart2 (intHexLower (jsRound (q * 255)))
  | none => "NaN"

/-- `rgbaToHex` (toon-converter): build `#rrggbb` from the `r`, `g`,
`b` fields scaled by 255 and rounded, then uppercase the whole string. -/
def rgbaToHex (c : Val) : String :=
  jsToUpper ("#" ++ hexByte (getNum (valField c "r")) ++
    hexByte (getNum (valField c "g")) ++ hexByte (getNum (valField c "b")))

/-- Uppercase hexadecimal digit for `d < 16`. -/
def upperHexChar (d : Nat) : Char :=
  if d < 10 then Char.ofNat (48 + d) else Char.ofNat (55 + d)

/-- Two uppercase hexadecimal digits of an integer in `[0, 255]`. -/
def twoHexUpper (n : ℤ) : String :=
  String.mk [upperHexChar (n.toNat / 16), upperHexChar (n.toNat % 16)]

/-- Clamp an integer to `[0, 255]` (the spec's clamping step). -/
def specClamp (n : ℤ) : ℤ := max 0 (min 255 n)

/-- The colour rule stated by the spec: multiply each channel by 255,
round to nearest, clamp to `[0, 255]`, render as two uppercase hex
digits per channel in order R, G, B behind a leading `#`. -/
def specRgbaToHex (r g b : ℚ) : String :=
  "#" ++ twoHexUpper (specClamp (jsRound (r * 255))) ++
    twoHexUpper (specClamp (jsRound (g * 255))) ++
    twoHexUpper (specClamp (jsRound (b * 255)))

/-- Uppercase hexadecimal digit test. -/
def isUpperHexDigit (c : Char) : Bool :=
  (('0' ≤ c) && (c ≤ '9')) || (('A' ≤ c) && (c ≤ 'F'))

/-- A `#` followed by exactly six uppercase hexadecimal digits. -/
def sixUpperHex (s : String) : Bool :=
  match s.data with
  | '#' :: rest => rest.length == 6 && rest.all isUpperHexDigit
  | _ => false

mutual

/-- A design node: a JavaScript object split into its plain properties
and its `children` array (absent children and an empty children array
are both the empty `JNodes`, which the source treats interchangeably). -/
inductive JNode where
  | mk : List (String × Val) → JNodes → JNode

/-- A children array of design nodes (a mutual inductive instead of
`List JNode` so that the tree recursions below are structural). -/
inductive JNodes where
  | nil : JNodes
  | cons : JNode → JNodes → JNodes

end

def JNode.props : JNode → List (String × Val)
  | .mk ps _ => ps

def JNode.children : JNode → JNodes
  | .mk _ cs => cs

/-- View a children array as a plain list. -/
def JNodes.toList : JNodes → List JNode
  | .nil => []
  | .cons n rest => n :: JNodes.toList rest

/-- Build a children array from a plain list. -/
def jlist : List JNode → JNodes
  | [] => .nil
  | n :: rest => .cons n (jlist rest)

/-- The `KEEP_PROPERTIES` allow-list, in its source insertion order
(iteration order of the `Set`). -/
def KEEP_PROPERTIES : List String :=
  ["id", "name", "type", "visible", "opacity",
   "fills", "strokes", "strokeWeight", "cornerRadius",
   "backgroundColor",
   "characters", "fontSize", "fontFamily", "fontWeight",
   "textAlignHorizontal", "lineHeightPx", "letterSpacing",
   "absoluteBoundingBox",
   "layoutMode", "primaryAxisAlignItems", "counterAxisAlignItems",
   "itemSpacing", "paddingLeft", "paddingRight", "paddingTop", "paddingBottom",
   "componentId",
   "children"]

/-- The fill filter `f.visible !== false`: keep unless the visibility
flag is strictly the boolean `false`. -/
def keepFill (f : Val) : Bool :=
  if valField f "visible" = some (Val.bool false) then false else true

/-- One gradient stop: `{ color: rgbaToHex(s.color), pos: s.position }`. -/
def simplifyStop (s : Val) : Val :=
  Val.obj ([("color", Val.str (rgbaToHex ((valField s "color").getD Val.null)))] ++
    (match valField s "position" with
     | some p => [("pos", p)]
     | none => []))

/-- `f.gradientStops.map(...)`; a non-array is outside the Figma
schema (the source would throw there). -/
def simplifyStops (gs : Val) : Val :=
  match gs with
  | .arr l => .arr (l.map simplifyStop)
  | _ => .arr []

/-- One retained fill entry as `simplifyFills` rebuilds it: `type`
first, then `color`, `opacity` (when not 1), gradient `stops`, and
image fields, in assignment order.  A field whose source value is
`undefined` is modelled as absent. -/
def simplifyFillEntry (f : Val) : Val :=
  Val.obj (
    (match valField f "type" with
     | some t => [("type", t)]
     | none => []) ++
    (match valField f "color" with
     | some c => if jsTruthy (some c) then [("color", Val.str (rgbaToHex c))] else []
     | none => []) ++
    (match valField f "opacity" with
     | some o => if o = Val.num 1 then [] else [("opacity", o)]
     | none => []) ++
    (if valField f "type" = some (.str "GRADIENT_LINEAR") ∨
        valField f "type" = some (.str "GRADIENT_RADIAL") then
      match valField f "gradientStops" with
      | some gs => if jsTruthy (some gs) then [("stops", simplifyStops gs)] else []
      | none => []
     else []) ++
    (if valField f "type" = some (.str "IMAGE") then
      (match valField f "imageRef" with
       | some v => [("imageRef", v)]
       | none => []) ++
      (match valField f "scaleMode" with
       | some v => [("scaleMode", v)]
       | none => [])
     else []))

/-- `simplifyFills`: `undefined` (`none`) for a falsy or empty list,
otherwise the visible entries simplified; a non-array truthy value is
outside the Figma schema. -/
def simplifyFills (v : Val) : Option (List Val) :=
  match v with
  | .arr [] => none
  | .arr l => some ((l.filter keepFill).map simplifyFillEntry)
  | _ => none

/-- One rounded field of `simplifyBoundingBox`; the fields are numbers
in the Figma schema (`NaN` arithmetic cannot arise there). -/
def roundField (v : Val) (k : String) : Val :=
  match getNum (valField v k) with
  | some q => Val.num ((jsRound q : ℤ) : ℚ)
  | none => Val.num 0

/-- `simplifyBoundingBox`: round the four coordinates and rename to
`{x, y, w, h}`. -/
def simplifyBB (v : Val) : Val :=
  .obj [("x", roundField v "x"), ("y", roundField v "y"),
        ("w", roundField v "width"), ("h", roundField v "height")]

/-- The body of `filterNode`'s per-key loop: the bindings contributed
to the filtered object by one allow-listed key, in the source's check
order (children handled separately; default values skipped; fills,
strokes, backgroundColor and absoluteBoundingBox transformed; falsy
backgroundColor / absoluteBoundingBox fall through to the plain copy). -/
def filterProp (props : List (String × Val)) (key : String) : List (String × Val) :=
  match alookup props key with
  | none => []
  | some val =>
    if key = "children" then []
    else if key = "visible" ∧ val = .bool true then []
    else if key = "opacity" ∧ val = .num 1 then []
    else if key = "fills" then
      match simplifyFills val with
      | some l => if l ≠ [] then [("fills", .arr l)] else []
      | none => []
    else if key = "strokes" then
      match simplifyFills val with
      | some l => if l ≠ [] then [("strokes", .arr l)] else []
      | none => []
    else if key = "backgroundColor" ∧ jsTruthy (some val) then
      [("backgroundColor", .str (rgbaToHex val))]
    else if key = "absoluteBoundingBox" ∧ jsTruthy (some val) then
      [("bounds", simplifyBB val)]
    else if key = "strokeWeight" ∧ val = .num 0 then []
    else if key = "cornerRadius" ∧ val = .num 0 then []
    else if key = "itemSpacing" ∧ val = .num 0 then []
    else if key = "paddingLeft" ∧ val = .num 0 then []
    else if key = "paddingRight" ∧ val = .num 0 then []
    else if key = "paddingTop" ∧ val = .num 0 then []
    else if key = "paddingBottom" ∧ val = .num 0 then []
    else if key = "layoutMode" ∧ val = .str "NONE" then []
    else [(key, val)]

mutual

/-- `filterNode`: walk the allow-list in order collecting the kept
bindings, and recursively filter the children. -/
def filterNode : JNode → JNode
  | .mk ps cs =>
      JNode.mk (KEEP_PROPERTIES.flatMap (filterProp ps)) (filterNodes cs)

/-- `node.children.map(filterNode)`. -/
def filterNodes : JNodes → JNodes
  | .nil => .nil
  | .cons n rest => .cons (filterNode n) (filterNodes rest)

end

/-- `FilteredPage`. -/
structure Page where
  id : String
  name : String
  children : JNodes

/-- `FilteredFile`. -/
structure FFile where
  name : String
  version : String
  lastModified : String
  pages : List Page

/-- A raw Figma file response: metadata plus the document root whose
children are the pages. -/
structure RawFile where
  name : String
  version : String
  lastModified : String
  document : JNode

/-- Read a string-typed field (`page.id`, `page.name`); the Figma
schema guarantees these are strings. -/
def getStrD (o : Option Val) : String :=
  match o with
  | some (.str s) => s
  | _ => ""

/-- `filterFile`: map each page of the document to a `FilteredPage`
with recursively filtered children. -/
def filterFile (f : RawFile) : FFile :=
  FFile.mk f.name f.version f.lastModified
    (f.document.children.toList.map (fun page =>
      Page.mk (getStrD (alookup page.props "id"))
        (getStrD (alookup page.props "name"))
        (filterNodes page.children)))

/-- `ChangeKind`. -/
inductive ChangeKind where
  | ADDED
  | REMOVED
  | MODIFIED
deriving DecidableEq, Repr

/-- `DesignChange`: the change-record shape of the differ.  The two
optional fields model the `oldValue?` / `newValue?` properties, absent
(`none`) when the source record literal does not assign them. -/
structure DesignChange where
  kind : ChangeKind
  page : String
  path : String
  property : String
  oldValue : Option Val
  newValue : Option Val
  summary : String
deriving DecidableEq

/-- Join element of `formatValue`'s colour rendering
(`Array.prototype.join` renders `null`/`undefined` as empty). -/
def joinOne (o : Option Val) : String :=
  match o with
  | none => ""
  | some .null => ""
  | some v => valToString v

/-- `formatValue` on a defined value. -/
def formatVal : Val → String
  | .null => "none"
  | .str s => s
  | .num q => numToJSString q
  | .bool b => if b then "true" else "false"
  | .arr [] => jsonStringify (.arr [])
  | .arr (f :: rest) =>
      if jsTruthy (valField f "color") then
        String.intercalate ", " ((f :: rest).map (fun g => joinOne (valField g "color")))
      else jsonStringify (.arr (f :: rest))
  | .obj kvs =>
      if "w" ∈ akeys kvs ∧ "h" ∈ akeys kvs then
        jsDisplay (alookup kvs "w") ++ "×" ++ jsDisplay (alookup kvs "h") ++
          " at (" ++ jsDisplay (alookup kvs "x") ++ "," ++
          jsDisplay (alookup kvs "y") ++ ")"
      else jsonStringify (.obj kvs)

/-- `formatValue` including the `undefined` case. -/
def formatV : Option Val → String
  | none => "none"
  | some v => formatVal v

/-- The MODIFIED record for a renamed node. -/
def mkRenamed (pageName path : String) (oldVal newVal : Option Val) : DesignChange :=
  DesignChange.mk .MODIFIED pageName path "name" oldVal newVal
    ("Renamed: \"" ++ jsDisplay oldVal ++ "\" → \"" ++ jsDisplay newVal ++ "\"")

/-- The ADDED record for a property present only in the new node. -/
def mkPropAdded (pageName path key : String) (newVal : Val) : DesignChange :=
  DesignChange.mk .ADDED pageName path key none (some newVal)
    (key ++ " added: " ++ formatVal newVal)

/-- The REMOVED record for a property present only in the old node. -/
def mkPropRemoved (pageName path key : String) (oldVal : Val) : DesignChange :=
  DesignChange.mk .REMOVED pageName path key (some oldVal) none
    (key ++ " removed (was: " ++ formatVal oldVal ++ ")")

/-- The MODIFIED record for a property whose value changed. -/
def mkPropModified (pageName path key : String) (oldVal newVal : Option Val) : DesignChange :=
  DesignChange.mk .MODIFIED pageName path key oldVal newVal
    (key ++ ": " ++ formatV oldVal ++ " → " ++ formatV newVal)

/-- The union of the two nodes' property keys excluding `children`, in
`Set` insertion order (old keys first). -/
def allKeys (oldProps newProps : List (String × Val)) : List String :=
  jsSetList ((akeys oldProps).filter (fun k => k ≠ "children") ++
    (akeys newProps).filter (fun k => k ≠ "children"))

/-- One iteration of `compareNodes`' key loop.  The final guard embeds
`deepDiff(oldVal, newVal)` returning some difference: the `deep-diff`
library reports no difference exactly on deep-equal values, which on
this value model is structural equality (the normalizer emits every
object with its fields in one canonical order, so key order never
separates deep-equal values here). -/
def compareKey (oldProps newProps : List (String × Val))
    (path pageName key : String) : List DesignChange :=
  let oldVal := alookup oldProps key
  let newVal := alookup newProps key
  if key = "id" then []
  else if key = "name" then
    if oldVal ≠ newVal then [mkRenamed pageName path oldVal newVal] else []
  else if oldVal = none ∧ newVal ≠ none then
    [mkPropAdded pageName path key (newVal.getD .null)]
  else if oldVal ≠ none ∧ newVal = none then
    [mkPropRemoved pageName path key (oldVal.getD .null)]
  else if oldVal ≠ newVal then
    [mkPropModified pageName path key oldVal newVal]
  else []

/-- `compareNodes`. -/
def compareNodes (oldNode newNode : JNode) (path pageName : String) :
    List DesignChange :=
  (allKeys oldNode.props newNode.props).flatMap
    (compareKey oldNode.props newNode.props path pageName)

mutual

/-- The depth-first insertion sequence of `buildNodeMap`: each node
contributes `(node.id, (node, displayPath))` followed by its subtree,
with `displayPath` extended by `node.name || node.id`. -/
def nodeEntries : JNode → String → List (Option Val × (JNode × String))
  | .mk ps cs, parentPath =>
      let nameOrId := if jsTruthy (alookup ps "name") then alookup ps "name"
        else alookup ps "id"
      let currentPath := if parentPath = "" then jsDisplay nameOrId
        else parentPath ++ " / " ++ jsDisplay nameOrId
      (alookup ps "id", (JNode.mk ps cs, currentPath)) ::
        nodeEntriesList cs currentPath

/-- Entry sequences of a sibling list, concatenated in order. -/
def nodeEntriesList : JNodes → String → List (Option Val × (JNode × String))
  | .nil, _ => []
  | .cons n rest, parentPath =>
      nodeEntries n parentPath ++ nodeEntriesList rest parentPath

end

/-- `buildNodeMap`: the identity map as a JavaScript `Map` fed with
the depth-first entry sequence (the nested map-merge of the source
inserts exactly this sequence). -/
def buildNodeMap (nodes : JNodes) (parentPath : String) :
    List (Option Val × (JNode × String)) :=
  jsMapOf (nodeEntriesList nodes parentPath)

/-- The truthy-fallback `node.name || id` used in node summaries. -/
def nameOrKey (n : JNode) (id : Option Val) : Option Val :=
  if jsTruthy (alookup n.props "name") then alookup n.props "name" else id

/-- The REMOVED record for a node missing from the new map. -/
def mkNodeRemoved (pageName : String) (id : Option Val) (e : JNode × String) :
    DesignChange :=
  DesignChange.mk .REMOVED pageName e.2 "node" (alookup e.1.props "type") none
    ("\"" ++ jsDisplay (nameOrKey e.1 id) ++ "\" (" ++
      jsDisplay (alookup e.1.props "type") ++ ") removed")

/-- The ADDED record for a node missing from the old map. -/
def mkNodeAdded (pageName : String) (id : Option Val) (e : JNode × String) :
    DesignChange :=
  DesignChange.mk .ADDED pageName e.2 "node" none (alookup e.1.props "type")
    ("\"" ++ jsDisplay (nameOrKey e.1 id) ++ "\" (" ++
      jsDisplay (alookup e.1.props "type") ++ ") added")

/-- `diffPage`: removed-or-modified pass over the old map, then the
added pass over the new map. -/
def diffPage (oldPage newPage : Page) : List DesignChange :=
  let pageName := if newPage.name ≠ "" then newPage.name else oldPage.name
  let oldMap := buildNodeMap oldPage.children ""
  let newMap := buildNodeMap newPage.children ""
  oldMap.flatMap (fun e =>
    match alookup newMap e.1 with
    | none => [mkNodeRemoved pageName e.1 e.2]
    | some newEntry => compareNodes e.2.1 newEntry.1 newEntry.2 pageName) ++
  newMap.flatMap (fun e =>
    if (alookup oldMap e.1).isSome then [] else [mkNodeAdded pageName e.1 e.2])

/-- The ADDED record for a page missing from the old document. -/
def mkPageAdded (p : Page) : DesignChange :=
  DesignChange.mk .ADDED p.name p.name "page" none none
    ("New page added: \"" ++ p.name ++ "\"")

/-- The REMOVED record for a page missing from the new document. -/
def mkPageRemoved (p : Page) : DesignChange :=
  DesignChange.mk .REMOVED p.name p.name "page" none none
    ("Page removed: \"" ++ p.name ++ "\"")

/-- The records `diffSnapshots` emits while visiting one entry of the
new page map: a page diff when the page exists on both sides, a single
page-level ADDED record otherwise. -/
def pagesContribution (oldPages : List (String × Page)) (e : String × Page) :
    List DesignChange :=
  match alookup oldPages e.1 with
  | some oldPage => diffPage oldPage e.2
  | none => [mkPageAdded e.2]

/-- The page identity map of a file:
`new Map(file.pages.map(p => [p.id, p]))`. -/
def pagesMap (f : FFile) : List (String × Page) :=
  jsMapOf (f.pages.map (fun p => (p.id, p)))

/-- The records the removed-pages pass emits while visiting one entry
of the old page map. -/
def pageRemovedCheck (newPages : List (String × Page)) (e : String × Page) :
    List DesignChange :=
  if (alookup newPages e.1).isSome then [] else [mkPageRemoved e.2]

/-- `diffSnapshots`: page maps keyed by page id; the new-map pass then
the removed-pages pass. -/
def diffSnapshots (oldFile newFile : FFile) : List DesignChange :=
  (pagesMap newFile).flatMap (pagesContribution (pagesMap oldFile)) ++
  (pagesMap oldFile).flatMap (pageRemovedCheck (pagesMap newFile))

/-- The relation between a record's kind and its optional value
fields: ADDED records have no old value, REMOVED records have no new
value, and a record carrying both values is MODIFIED. -/
def kindValues (c : DesignChange) : Prop :=
  (c.kind = .ADDED → c.oldValue = none) ∧
  (c.kind = .REMOVED → c.newValue = none) ∧
  (c.oldValue ≠ none → c.newValue ≠ none → c.kind = .MODIFIED)

/-- The property names present on a change record, as the `DesignChange`
interface declares them: four mandatory fields, the two optional value
fields exactly when assigned, and `summary`. -/
def DesignChange.fields (c : DesignChange) : List String :=
  ["kind", "page", "path", "property"] ++
  (if c.oldValue.isSome then ["oldValue"] else []) ++
  (if c.newValue.isSome then ["newValue"] else []) ++
  ["summary"]

/-- Sibling lists related by moving nodes to different sibling
indices, at any depth, without changing any node's properties: the
empty lists are related; corresponding head nodes with equal
properties and recursively related children (and related tails) are
related; two adjacent siblings may be exchanged unchanged; and moves
compose transitively.  Every reordering of siblings anywhere in the
tree is generated this way. -/
inductive TreeMoved : JNodes → JNodes → Prop where
  | nil : TreeMoved .nil .nil
  | cons : ∀ (ps : List (String × Val)) {cs1 cs2 l1 l2 : JNodes},
      TreeMoved cs1 cs2 → TreeMoved l1 l2 →
      TreeMoved (.cons (.mk ps cs1) l1) (.cons (.mk ps cs2) l2)
  | swap : ∀ (a b : JNode) (l : JNodes),
      TreeMoved (.cons a (.cons b l)) (.cons b (.cons a l))
  | trans : ∀ {l1 l2 l3 : JNodes},
      TreeMoved l1 l2 → TreeMoved l2 l3 → TreeMoved l1 l3

/-- The part of an identity-map entry that node matching and property
comparison read: the key, the node's properties, and the display
path — everything except the node's children. -/
def projEntry (e : Option Val × (JNode × String)) :
    Option Val × (List (String × Val) × String) :=
  (e.1, (e.2.1.props, e.2.2))

/-- The value part of `projEntry`. -/
def projVal (e : JNode × String) : List (String × Val) × String :=
  (e.1.props, e.2)

/-- The new version of a page is the old one with nodes moved to
different sibling indices (at any depth): same id, same name, children
related by `NodesMoved`, node ids of the page duplicate-free. -/
def pageMoved (po pn : Page) : Prop :=
  pn.id = po.id ∧ pn.name = po.name ∧
  TreeMoved po.children pn.children ∧
  (akeys (nodeEntriesList po.children "")).Nodup

section AssocLemmas

variable {κ β : Type} [DecidableEq κ]

theorem alookup_append (l₁ l₂ : List (κ × β)) (k : κ) :
    alookup (l₁ ++ l₂) k =
      (match alookup l₁ k with
       | some v => some v
       | none => alookup l₂ k) := by
  induction l₁ with
  | nil => simp [alookup]
  | cons kv rest ih =>
    by_cases h : kv.1 = k <;> simp [alookup, h, ih]

theorem alookup_eq_none_iff (l : List (κ × β)) (k : κ) :
    alookup l k = none ↔ k ∉ akeys l := by
  induction l with
  | nil => simp [alookup, akeys]
  | cons kv rest ih =>
    by_cases h : kv.1 = k
    · simp [alookup, akeys, h]
    · have h2 : ¬ k = kv.1 := fun hh => h hh.symm
      simp only [alookup, if_neg h, akeys, List.map_cons, List.mem_cons]
      rw [ih]
      simp [akeys, h2]

theorem alookup_isSome_iff (l : List (κ × β)) (k : κ) :
    (alookup l k).isSome ↔ k ∈ akeys l := by
  rw [Option.isSome_iff_ne_none, ne_eq, alookup_eq_none_iff]
  exact not_not

theorem alookup_of_mem_nodup {l : List (κ × β)} {k : κ} {v : β}
    (nd : (akeys l).Nodup) (h : (k, v) ∈ l) : alookup l k = some v := by
  induction l with
  | nil => simp at h
  | cons kv rest ih =>
    simp only [akeys, List.map_cons, List.nodup_cons] at nd
    rcases List.mem_cons.mp h with h1 | h2
    · subst h1; simp [alookup]
    · have hk : kv.1 ≠ k := by
        intro he
        exact nd.1 (he ▸ (List.mem_map.mpr ⟨(k, v), h2, rfl⟩))
      simpa [alookup, hk] using ih nd.2 h2

theorem mem_of_alookup_eq_some {l : List (κ × β)} {k : κ} {v : β}
    (h : alookup l k = some v) : (k, v) ∈ l := by
  induction l with
  | nil => simp [alookup] at h
  | cons kv rest ih =>
    obtain ⟨k1, v1⟩ := kv
    by_cases hk : k1 = k
    · subst hk
      simp [alookup] at h
      subst h
      exact List.mem_cons_self _ _
    · simp [alookup, hk] at h
      exact List.mem_cons_of_mem _ (ih h)

theorem akeys_jsInsert (m : List (κ × β)) (k : κ) (v : β) :
    akeys (jsInsert m k v) =
      (if (alookup m k).isSome then akeys m else akeys m ++ [k]) := by
  unfold jsInsert
  by_cases h : (alookup m k).isSome
  · simp only [h, if_true, akeys, List.map_map]
    congr 1
    funext kv
    by_cases hk : kv.1 = k <;> simp [hk]
  · simp [h, akeys]

theorem nodup_akeys_jsInsert {m : List (κ × β)} (nd : (akeys m).Nodup)
    (k : κ) (v : β) : (akeys (jsInsert m k v)).Nodup := by
  rw [akeys_jsInsert]
  by_cases h : (alookup m k).isSome
  · simpa [h]
  · have hk : k ∉ akeys m := by
      rw [← alookup_eq_none_iff]
      exact Option.not_isSome_iff_eq_none.mp h
    simp [h, List.nodup_append, nd, hk]

theorem nodup_akeys_foldl_jsInsert (l : List (κ × β)) :
    ∀ m : List (κ × β), (akeys m).Nodup →
      (akeys (l.foldl (fun m kv => jsInsert m kv.1 kv.2) m)).Nodup := by
  induction l with
  | nil => intro m nd; simpa
  | cons kv rest ih =>
    intro m nd
    exact ih _ (nodup_akeys_jsInsert nd kv.1 kv.2)

theorem nodup_akeys_jsMapOf (l : List (κ × β)) : (akeys (jsMapOf l)).Nodup :=
  nodup_akeys_foldl_jsInsert l [] (by simp [akeys])

theorem alookup_mapUpdate (m : List (κ × β)) (k : κ) (v : β) (key : κ) :
    alookup (m.map (fun kv => if kv.1 = k then (k, v) else kv)) key =
      if k = key then (if (alookup m k).isSome then some v else none)
      else alookup m key := by
  induction m with
  | nil => by_cases h : k = key <;> simp [alookup, h]
  | cons kv rest ih =>
    obtain ⟨k1, v1⟩ := kv
    simp only [List.map_cons]
    by_cases h1 : k1 = k
    · subst h1
      rw [if_pos rfl]
      by_cases h2 : k1 = key
      · subst h2
        simp [alookup]
      · simp only [alookup, if_neg h2, ih, if_neg h2]
    · rw [if_neg h1]
      by_cases h2 : k1 = key
      · subst h2
        have h3 : ¬ k = k1 := fun hh => h1 hh.symm
        simp [alookup, h3]
      · simp only [alookup, if_neg h2, ih]
        simp [alookup, h1]

theorem alookup_jsInsert (m : List (κ × β)) (k : κ) (v : β) (key : κ) :
    alookup (jsInsert m k v) key =
      if k = key then some v else alookup m key := by
  unfold jsInsert
  by_cases h : (alookup m k).isSome
  · rw [if_pos h, alookup_mapUpdate, if_pos h]
  · rw [if_neg h, alookup_append]
    by_cases h2 : k = key
    · subst h2
      rw [Option.not_isSome_iff_eq_none] at h
      simp [h, alookup]
    · by_cases h3 : (alookup m key).isSome
      · rcases Option.isSome_iff_exists.mp h3 with ⟨v2, hv2⟩
        simp [hv2, h2]
      · rw [Option.not_isSome_iff_eq_none] at h3
        simp [h3, alookup, h2]

theorem alookup_foldl_jsInsert (l : List (κ × β)) :
    ∀ (m : List (κ × β)) (key : κ),
      alookup (l.foldl (fun m kv => jsInsert m kv.1 kv.2) m) key =
        (match alookup l.reverse key with
         | some v => some v
         | none => alookup m key) := by
  induction l with
  | nil => intro m key; simp [alookup]
  | cons kv rest ih =>
    intro m key
    simp only [List.foldl_cons, List.reverse_cons]
    rw [ih, alookup_append]
    by_cases h : (alookup rest.reverse key).isSome
    · rcases Option.isSome_iff_exists.mp h with ⟨v, hv⟩
      simp [hv]
    · rw [Option.not_isSome_iff_eq_none] at h
      simp only [h]
      rw [alookup_jsInsert]
      by_cases h2 : kv.1 = key <;> simp [alookup, h2]

/-- Looking up in a JavaScript `Map` built from a pair sequence finds
the value of the LAST binding of the key in the sequence. -/
theorem alookup_jsMapOf (l : List (κ × β)) (key : κ) :
    alookup (jsMapOf l) key = alookup l.reverse key := by
  rw [jsMapOf, alookup_foldl_jsInsert]
  cases alookup l.reverse key <;> simp [alookup]

theorem alookup_reverse_of_nodup {l : List (κ × β)}
    (nd : (akeys l).Nodup) (key : κ) :
    alookup l.reverse key = alookup l key := by
  induction l with
  | nil => rfl
  | cons kv rest ih =>
    simp only [akeys, List.map_cons, List.nodup_cons] at nd
    rw [List.reverse_cons, alookup_append, ih nd.2]
    by_cases h : kv.1 = key
    · subst h
      have : alookup rest kv.1 = none := by
        rw [alookup_eq_none_iff]
        exact nd.1
      simp [this, alookup]
    · cases h2 : alookup rest key <;> simp [alookup, h, h2]

/-- On a duplicate-free pair sequence the `Map` built from it agrees
with plain first-match lookup. -/
theorem alookup_jsMapOf_of_nodup {l : List (κ × β)}
    (nd : (akeys l).Nodup) (key : κ) :
    alookup (jsMapOf l) key = alookup l key := by
  rw [alookup_jsMapOf, alookup_reverse_of_nodup nd]

theorem alookup_of_perm {l₁ l₂ : List (κ × β)} (p : l₁.Perm l₂)
    (nd : (akeys l₁).Nodup) (key : κ) :
    alookup l₁ key = alookup l₂ key := by
  induction p with
  | nil => rfl
  | cons x _ ih =>
    simp only [akeys, List.map_cons, List.nodup_cons] at nd
    by_cases h : x.1 = key <;> simp [alookup, h, ih nd.2]
  | swap x y l =>
    by_cases h1 : y.1 = key
    · subst h1
      simp only [akeys, List.map_cons, List.nodup_cons, List.mem_cons] at nd
      have : ¬ (x.1 = y.1) := fun hh => nd.1 (Or.inl hh.symm)
      simp [alookup, this]
    · by_cases h2 : x.1 = key <;> simp [alookup, h1, h2]
  | trans p1 p2 ih1 ih2 =>
    rename_i l₁ l₂ l₃
    have nd2 : (akeys l₂).Nodup := (p1.map Prod.fst).nodup_iff.mp nd
    rw [ih1 nd, ih2 nd2]

theorem mem_jsSetList_iff (l : List κ) (k : κ) :
    k ∈ jsSetList l ↔ k ∈ l := by
  suffices h : ∀ acc : List κ,
      k ∈ l.foldl (fun acc k => if k ∈ acc then acc else acc ++ [k]) acc ↔
        k ∈ acc ∨ k ∈ l by
    have := h []
    simpa [jsSetList] using this
  induction l with
  | nil => intro acc; simp
  | cons x rest ih =>
    intro acc
    simp only [List.foldl_cons]
    by_cases hx : x ∈ acc
    · rw [if_pos hx, ih]
      constructor
      · rintro (h | h)
        · exact Or.inl h
        · exact Or.inr (List.mem_cons_of_mem x h)
      · rintro (h | h)
        · exact Or.inl h
        · rcases List.mem_cons.mp h with h1 | h2
          · exact Or.inl (h1 ▸ hx)
          · exact Or.inr h2
    · rw [if_neg hx, ih]
      simp only [List.mem_append, List.mem_singleton, List.mem_cons]
      tauto

theorem nodup_jsSetList (l : List κ) : (jsSetList l).Nodup := by
  suffices h : ∀ acc : List κ, acc.Nodup →
      (l.foldl (fun acc k => if k ∈ acc then acc else acc ++ [k]) acc).Nodup by
    exact h [] List.nodup_nil
  induction l with
  | nil => intro acc nd; simpa
  | cons x rest ih =>
    intro acc nd
    simp only [List.foldl_cons]
    by_cases hx : x ∈ acc
    · rw [if_pos hx]; exact ih acc nd
    · rw [if_neg hx]
      exact ih _ (by simp [List.nodup_append, nd, hx])

end AssocLemmas

theorem JNodes.toList_jlist (l : List JNode) : (jlist l).toList = l := by
  induction l with
  | nil => rfl
  | cons n rest ih => simp [jlist, JNodes.toList, ih]

section DiffLemmas

theorem flatMap_eq_nil_of_forall {α β : Type} {l : List α} {f : α → List β}
    (h : ∀ x ∈ l, f x = []) : l.flatMap f = [] := by
  induction l with
  | nil => rfl
  | cons x rest ih =>
    rw [List.flatMap_cons, h x (List.mem_cons_self x rest),
      ih (fun y hy => h y (List.mem_cons_of_mem x hy))]
    rfl

theorem flatMap_eq_singleton {α β : Type} {l : List α} {f : α → List β}
    {a : α} {b : β} (nd : l.Nodup) (ha : a ∈ l) (h1 : f a = [b])
    (h0 : ∀ x ∈ l, x ≠ a → f x = []) : l.flatMap f = [b] := by
  induction l with
  | nil => simp at ha
  | cons x rest ih =>
    rw [List.nodup_cons] at nd
    rcases List.mem_cons.mp ha with hx | hrest
    · subst hx
      rw [List.flatMap_cons, h1,
        flatMap_eq_nil_of_forall (fun y hy =>
          h0 y (List.mem_cons_of_mem _ hy)
            (fun he => nd.1 (he ▸ hy)))]
      rfl
    · have hxa : x ≠ a := fun he => nd.1 (he ▸ hrest)
      rw [List.flatMap_cons, h0 x (List.mem_cons_self x rest) hxa,
        ih nd.2 hrest (fun y hy hne => h0 y (List.mem_cons_of_mem _ hy) hne)]
      rfl

theorem alookup_self_of_mem_jsMapOf {κ β : Type} [DecidableEq κ]
    {l : List (κ × β)} {e : κ × β} (h : e ∈ jsMapOf l) :
    alookup (jsMapOf l) e.1 = some e.2 :=
  alookup_of_mem_nodup (nodup_akeys_jsMapOf l) (by rwa [Prod.mk.eta])

/-- Comparing a node with itself emits no record for any key. -/
theorem compareKey_self (p : List (String × Val)) (path pageName key : String) :
    compareKey p p path pageName key = [] := by
  unfold compareKey
  split_ifs <;> simp_all

/-- `compareNodes` of a node against itself is empty. -/
theorem compareNodes_self (n : JNode) (path pageName : String) :
    compareNodes n n path pageName = [] :=
  flatMap_eq_nil_of_forall (fun k _ => compareKey_self n.props path pageName k)

/-- `diffPage` of a page against itself is empty. -/
theorem diffPage_self (p : Page) : diffPage p p = [] := by
  simp only [diffPage]
  rw [List.append_eq_nil]
  constructor
  · apply flatMap_eq_nil_of_forall
    intro e he
    simp only [buildNodeMap] at he ⊢
    rw [alookup_self_of_mem_jsMapOf he]
    exact compareNodes_self _ _ _
  · apply flatMap_eq_nil_of_forall
    intro e he
    simp only [buildNodeMap] at he ⊢
    simp [alookup_self_of_mem_jsMapOf he]

/-- `diffSnapshots` of a file against itself is empty. -/
theorem diffSnapshots_self (f : FFile) : diffSnapshots f f = [] := by
  simp only [diffSnapshots]
  rw [List.append_eq_nil]
  constructor
  · apply flatMap_eq_nil_of_forall
    intro e he
    unfold pagesContribution
    simp only [pagesMap] at he ⊢
    rw [alookup_self_of_mem_jsMapOf he]
    exact diffPage_self _
  · apply flatMap_eq_nil_of_forall
    intro e he
    unfold pageRemovedCheck
    simp only [pagesMap] at he ⊢
    simp [alookup_self_of_mem_jsMapOf he]

end DiffLemmas

/-- C1.  No-op diff: for every raw Figma file `D`, diffing the
normalized form of `D` against itself yields the empty change list:
`diffSnapshots(filterFile(D), filterFile(D)) = []`. -/
theorem C1_noop_diff (D : RawFile) :
    diffSnapshots (filterFile D) (filterFile D) = [] :=
  diffSnapshots_self (filterFile D)

section KindValuesLemmas

theorem compareKey_cases (p q : List (String × Val)) (path pageName key : String) :
    compareKey p q path pageName key = [] ∨
    compareKey p q path pageName key =
      [mkRenamed pageName path (alookup p key) (alookup q key)] ∨
    compareKey p q path pageName key =
      [mkPropAdded pageName path key ((alookup q key).getD .null)] ∨
    compareKey p q path pageName key =
      [mkPropRemoved pageName path key ((alookup p key).getD .null)] ∨
    compareKey p q path pageName key =
      [mkPropModified pageName path key (alookup p key) (alookup q key)] := by
  unfold compareKey
  split_ifs <;> simp <;> (try split_ifs <;> simp) <;> (try tauto)

theorem kindValues_mkRenamed (pageName path : String) (o n : Option Val) :
    kindValues (mkRenamed pageName path o n) := by
  simp [kindValues, mkRenamed]

theorem kindValues_mkPropAdded (pageName path key : String) (v : Val) :
    kindValues (mkPropAdded pageName path key v) := by
  simp [kindValues, mkPropAdded]

theorem kindValues_mkPropRemoved (pageName path key : String) (v : Val) :
    kindValues (mkPropRemoved pageName path key v) := by
  simp [kindValues, mkPropRemoved]

theorem kindValues_mkPropModified (pageName path key : String) (o n : Option Val) :
    kindValues (mkPropModified pageName path key o n) := by
  simp [kindValues, mkPropModified]

theorem kindValues_compareKey {p q : List (String × Val)}
    {path pageName key : String} {c : DesignChange}
    (h : c ∈ compareKey p q path pageName key) : kindValues c := by
  rcases compareKey_cases p q path pageName key with hc | hc | hc | hc | hc <;>
    rw [hc] at h
  · exact absurd h (List.not_mem_nil c)
  · obtain rfl := List.mem_singleton.mp h
    exact kindValues_mkRenamed _ _ _ _
  · obtain rfl := List.mem_singleton.mp h
    exact kindValues_mkPropAdded _ _ _ _
  · obtain rfl := List.mem_singleton.mp h
    exact kindValues_mkPropRemoved _ _ _ _
  · obtain rfl := List.mem_singleton.mp h
    exact kindValues_mkPropModified _ _ _ _ _

theorem kindValues_compareNodes {a b : JNode} {path pageName : String}
    {c : DesignChange} (h : c ∈ compareNodes a b path pageName) :
    kindValues c := by
  unfold compareNodes at h
  rcases List.mem_flatMap.mp h with ⟨k, _, hk⟩
  exact kindValues_compareKey hk

theorem kindValues_mkNodeRemoved (pageName : String) (id : Option Val)
    (e : JNode × String) : kindValues (mkNodeRemoved pageName id e) := by
  simp [kindValues, mkNodeRemoved]

theorem kindValues_mkNodeAdded (pageName : String) (id : Option Val)
    (e : JNode × String) : kindValues (mkNodeAdded pageName id e) := by
  simp [kindValues, mkNodeAdded]

theorem kindValues_diffPage {po pn : Page} {c : DesignChange}
    (h : c ∈ diffPage po pn) : kindValues c := by
  simp only [diffPage] at h
  rcases List.mem_append.mp h with h1 | h2
  · rcases List.mem_flatMap.mp h1 with ⟨e, _, he⟩
    rcases hm : alookup (buildNodeMap pn.children "") e.1 with _ | newEntry
    · rw [hm] at he
      obtain rfl := List.mem_singleton.mp he
      exact kindValues_mkNodeRemoved _ _ _
    · rw [hm] at he
      exact kindValues_compareNodes he
  · rcases List.mem_flatMap.mp h2 with ⟨e, _, he⟩
    by_cases hs : (alookup (buildNodeMap po.children "") e.1).isSome
    · simp [hs] at he
    · simp only [hs, if_false] at he
      obtain rfl := List.mem_singleton.mp he
      exact kindValues_mkNodeAdded _ _ _

theorem kindValues_mkPageAdded (p : Page) : kindValues (mkPageAdded p) := by
  simp [kindValues, mkPageAdded]

theorem kindValues_mkPageRemoved (p : Page) : kindValues (mkPageRemoved p) := by
  simp [kindValues, mkPageRemoved]

theorem kindValues_diffSnapshots {old new : FFile} {c : DesignChange}
    (h : c ∈ diffSnapshots old new) : kindValues c := by
  simp only [diffSnapshots] at h
  rcases List.mem_append.mp h with h1 | h2
  · rcases List.mem_flatMap.mp h1 with ⟨e, _, he⟩
    unfold pagesContribution at he
    rcases hm : alookup (pagesMap old) e.1 with _ | po
    · rw [hm] at he
      obtain rfl := List.mem_singleton.mp he
      exact kindValues_mkPageAdded _
    · rw [hm] at he
      exact kindValues_diffPage he
  · rcases List.mem_flatMap.mp h2 with ⟨e, _, he⟩
    unfold pageRemovedCheck at he
    by_cases hs : (alookup (pagesMap new) e.1).isSome
    · simp [hs] at he
    · simp only [hs, if_false] at he
      obtain rfl := List.mem_singleton.mp he
      exact kindValues_mkPageRemoved _

end KindValuesLemmas

/-- C10.  For every pair of input documents, every change record
emitted by `diffSnapshots` with kind ADDED has no `oldValue`, every
record with kind REMOVED has no `newValue`, and only MODIFIED records
carry both an `oldValue` and a `newValue`. -/
theorem C10_kind_value_fields (old new : FFile) (c : DesignChange)
    (h : c ∈ diffSnapshots old new) :
    (c.kind = .ADDED → c.oldValue = none) ∧
    (c.kind = .REMOVED → c.newValue = none) ∧
    (c.oldValue ≠ none → c.newValue ≠ none → c.kind = .MODIFIED) :=
  kindValues_diffSnapshots h

/-- C10 witness: a concrete diff containing an ADDED, a REMOVED and a
MODIFIED record, on which the invariant is checked by evaluation. -/
theorem C10_kind_value_fields_witness :
    (DesignChange.mk .MODIFIED "Home" "B" "name" (some (.str "A"))
        (some (.str "B")) "Renamed: \"A\" → \"B\"") ∈
      diffSnapshots
        (FFile.mk "F" "v1" "t"
          [Page.mk "0:1" "Home" (jlist [JNode.mk [("id", .str "1:1"), ("name", .str "A")] .nil])])
        (FFile.mk "F" "v1" "t"
          [Page.mk "0:1" "Home" (jlist [JNode.mk [("id", .str "1:1"), ("name", .str "B")] .nil])]) ∧
    ((DesignChange.mk .MODIFIED "Home" "B" "name" (some (.str "A"))
        (some (.str "B")) "Renamed: \"A\" → \"B\"").kind = .ADDED →
      (DesignChange.mk .MODIFIED "Home" "B" "name" (some (.str "A"))
        (some (.str "B")) "Renamed: \"A\" → \"B\"").oldValue = none) := by
  have hm : (DesignChange.mk .MODIFIED "Home" "B" "name" (some (.str "A"))
      (some (.str "B")) "Renamed: \"A\" → \"B\"") ∈
      diffSnapshots
        (FFile.mk "F" "v1" "t"
          [Page.mk "0:1" "Home" (jlist [JNode.mk [("id", .str "1:1"), ("name", .str "A")] .nil])])
        (FFile.mk "F" "v1" "t"
          [Page.mk "0:1" "Home" (jlist [JNode.mk [("id", .str "1:1"), ("name", .str "B")] .nil])]) := by
    decide
  exact ⟨hm, (C10_kind_value_fields _ _ _ hm).1⟩

/-- C2 counterexample: a concrete pair of documents whose diff emits a
record (a page-level ADDED record) that carries neither a `pageId` nor
a `nodeId` field, refuting the claim that every emitted record carries
both. -/
theorem C2_counterexample :
    diffSnapshots (FFile.mk "F" "v1" "t" [])
      (FFile.mk "F" "v2" "t2" [Page.mk "0:9" "Settings" JNodes.nil]) =
      [DesignChange.mk .ADDED "Settings" "Settings" "page" none none
        "New page added: \"Settings\""] ∧
    "pageId" ∉ (DesignChange.mk .ADDED "Settings" "Settings" "page" none none
        "New page added: \"Settings\"").fields ∧
    "nodeId" ∉ (DesignChange.mk .ADDED "Settings" "Settings" "page" none none
        "New page added: \"Settings\"").fields := by
  decide

/-- C2 as amended: every record produced by the differ has the shape
`{kind, page, path, property, oldValue?, newValue?, summary}` — it
locates the change through the `page` name and the display `path`,
and carries no `pageId` or `nodeId` field. -/
theorem C2_record_shape (old new : FFile) (c : DesignChange)
    (h : c ∈ diffSnapshots old new) :
    c.fields ⊆ ["kind", "page", "path", "property", "oldValue", "newValue",
      "summary"] ∧
    "page" ∈ c.fields ∧ "path" ∈ c.fields ∧
    "pageId" ∉ c.fields ∧ "nodeId" ∉ c.fields := by
  clear h
  unfold DesignChange.fields
  by_cases h1 : c.oldValue.isSome <;> by_cases h2 : c.newValue.isSome <;>
    simp [h1, h2]

/-- C2 witness: the amended shape statement applied to a concrete
emitted record. -/
theorem C2_record_shape_witness :
    "page" ∈ (DesignChange.mk .REMOVED "Old" "Old" "page" none none
      "Page removed: \"Old\"").fields := by
  have hm : (DesignChange.mk .REMOVED "Old" "Old" "page" none none
      "Page removed: \"Old\"") ∈
      diffSnapshots (FFile.mk "F" "v1" "t" [Page.mk "0:7" "Old" JNodes.nil])
        (FFile.mk "F" "v2" "t2" []) := by decide
  exact (C2_record_shape _ _ _ hm).2.1

/-- A key whose value is the same on both sides produces no record
(this also covers an equal `name` and the skipped `id`). -/
theorem compareKey_eq_nil_of_lookup_eq {p q : List (String × Val)} {key : String}
    (h : alookup p key = alookup q key) (path pageName : String) :
    compareKey p q path pageName key = [] := by
  unfold compareKey
  split_ifs <;> simp_all

/-- Every key of either side occurs in `allKeys` (except `children`),
and `allKeys` is duplicate-free. -/
theorem mem_allKeys_of_alookup_old {p q : List (String × Val)} {key : String}
    {v : Val} (h : alookup p key = some v) (hk : key ≠ "children") :
    key ∈ allKeys p q := by
  unfold allKeys
  rw [mem_jsSetList_iff, List.mem_append]
  left
  rw [List.mem_filter]
  refine ⟨?_, by simpa using hk⟩
  rw [← alookup_isSome_iff, h]
  rfl

/-- C4.  For two canonical nodes sharing an `id` whose `name` values
are distinct strings while every other property is unchanged, the
differ emits exactly one record for the node: a MODIFIED record with
property `name` and summary `Renamed: "<old>" → "<new>"`, and no
record for any other property. -/
theorem C4_rename_single_record (old new : JNode) (path pageName a b : String)
    (hna : alookup old.props "name" = some (.str a))
    (hnb : alookup new.props "name" = some (.str b))
    (hab : a ≠ b)
    (hother : ∀ k, k ≠ "name" → alookup old.props k = alookup new.props k) :
    compareNodes old new path pageName =
      [DesignChange.mk .MODIFIED pageName path "name"
        (some (.str a)) (some (.str b))
        ("Renamed: \"" ++ a ++ "\" → \"" ++ b ++ "\"")] := by
  unfold compareNodes
  apply flatMap_eq_singleton (a := "name")
  · exact nodup_jsSetList _
  · exact mem_allKeys_of_alookup_old hna (by decide)
  · unfold compareKey
    rw [hna, hnb]
    have hne : some (Val.str a) ≠ some (Val.str b) := by
      intro hh
      exact hab (by injection hh with hv; injection hv)
    rw [if_neg (by decide), if_pos rfl, if_pos hne]
    simp [mkRenamed, jsDisplay, valToString]
  · intro k _ hk
    exact compareKey_eq_nil_of_lookup_eq (hother k hk) path pageName

/-- C4 witness: a concrete rename (`"Login Button"` to
`"Sign In Button"`) produces exactly the single MODIFIED name record. -/
theorem C4_rename_single_record_witness :
    compareNodes
      (JNode.mk [("id", .str "1:2"), ("name", .str "Login Button"),
        ("type", .str "FRAME"), ("cornerRadius", .num 8)] .nil)
      (JNode.mk [("id", .str "1:2"), ("name", .str "Sign In Button"),
        ("type", .str "FRAME"), ("cornerRadius", .num 8)] .nil)
      "Header / Login Button" "Home" =
      [DesignChange.mk .MODIFIED "Home" "Header / Login Button" "name"
        (some (.str "Login Button")) (some (.str "Sign In Button"))
        "Renamed: \"Login Button\" → \"Sign In Button\""] := by
  apply C4_rename_single_record
  · rfl
  · rfl
  · decide
  · intro k hk
    have h2 : ¬ ("name" = k) := fun hh => hk hh.symm
    simp [JNode.props, alookup, h2]

theorem string_data_append (a b : String) : (a ++ b).data = a.data ++ b.data := by
  cases a; cases b; rfl

theorem jsToUpper_append (a b : String) :
    jsToUpper (a ++ b) = jsToUpper a ++ jsToUpper b := by
  obtain ⟨la⟩ := a
  obtain ⟨lb⟩ := b
  show String.mk (((⟨la⟩ : String) ++ (⟨lb⟩ : String)).data.map upChar) =
    String.mk (la.map upChar ++ lb.map upChar)
  rw [string_data_append]
  simp

/-- Rendering one in-range byte: lowercase hex, two-padded, uppercased
equals the two-uppercase-digit rendering, whose digits are uppercase
hex. -/
theorem hex_render_ok : ∀ m : ℕ, m < 256 →
    jsToUpper (padStart2 (intHexLower (m : ℤ))) = twoHexUpper (m : ℤ) ∧
    ((twoHexUpper (m : ℤ)).data.all isUpperHexDigit = true ∧
      (twoHexUpper (m : ℤ)).data.length = 2) := by
  decide

theorem jsRound_bounds {q : ℚ} (h0 : 0 ≤ q) (h1 : q ≤ 1) :
    0 ≤ jsRound (q * 255) ∧ jsRound (q * 255) ≤ 255 := by
  unfold jsRound
  constructor
  · rw [Int.le_floor]
    push_cast
    nlinarith
  · have : (255 : ℤ) = 256 - 1 := by norm_num
    rw [this, Int.le_sub_one_iff, Int.floor_lt]
    push_cast
    nlinarith

theorem specClamp_eq_self {n : ℤ} (h0 : 0 ≤ n) (h1 : n ≤ 255) :
    specClamp n = n := by
  unfold specClamp
  omega

/-- The code's hex rendering agrees with the spec's rule on in-range
channels, and produces `#` followed by six uppercase hex digits. -/
theorem rgbaToHex_spec (r g b : ℚ)
    (hr0 : 0 ≤ r) (hr1 : r ≤ 1) (hg0 : 0 ≤ g) (hg1 : g ≤ 1)
    (hb0 : 0 ≤ b) (hb1 : b ≤ 1) :
    rgbaToHex (Val.obj [("r", .num r), ("g", .num g), ("b", .num b),
        ("a", .num 1)]) = specRgbaToHex r g b ∧
    sixUpperHex (specRgbaToHex r g b) = true := by
  have hch : ∀ q : ℚ, 0 ≤ q → q ≤ 1 →
      jsToUpper (hexByte (some q)) = twoHexUpper (specClamp (jsRound (q * 255))) ∧
      ((twoHexUpper (specClamp (jsRound (q * 255)))).data.all isUpperHexDigit = true ∧
        (twoHexUpper (specClamp (jsRound (q * 255)))).data.length = 2) := by
    intro q h0 h1
    obtain ⟨hq0, hq1⟩ := jsRound_bounds h0 h1
    rw [specClamp_eq_self hq0 hq1]
    show jsToUpper (padStart2 (intHexLower (jsRound (q * 255)))) =
        twoHexUpper (jsRound (q * 255)) ∧ _
    obtain ⟨m, hm⟩ := Int.eq_ofNat_of_zero_le hq0
    rw [hm] at hq1 ⊢
    have hlt : m < 256 := by exact_mod_cast Int.lt_add_one_iff.mpr hq1
    exact hex_render_ok m hlt
  have e1 : rgbaToHex (Val.obj [("r", .num r), ("g", .num g), ("b", .num b),
      ("a", .num 1)]) =
      jsToUpper "#" ++ jsToUpper (hexByte (some r)) ++
        jsToUpper (hexByte (some g)) ++ jsToUpper (hexByte (some b)) := by
    unfold rgbaToHex
    rw [jsToUpper_append, jsToUpper_append, jsToUpper_append]
    rfl
  obtain ⟨er, hr⟩ := hch r hr0 hr1
  obtain ⟨eg, hg⟩ := hch g hg0 hg1
  obtain ⟨eb, hb⟩ := hch b hb0 hb1
  constructor
  · have h4 : jsToUpper "#" = "#" := by decide
    rw [e1, er, eg, eb, h4]
    rfl
  · unfold specRgbaToHex
    set t1 := twoHexUpper (specClamp (jsRound (r * 255))) with ht1
    set t2 := twoHexUpper (specClamp (jsRound (g * 255))) with ht2
    set t3 := twoHexUpper (specClamp (jsRound (b * 255))) with ht3
    have hdata : ("#" ++ t1 ++ t2 ++ t3).data =
        '#' :: (t1.data ++ t2.data ++ t3.data) := by
      rw [string_data_append, string_data_append, string_data_append]
      rfl
    unfold sixUpperHex
    rw [hdata]
    show ((t1.data ++ t2.data ++ t3.data).length == 6 &&
      (t1.data ++ t2.data ++ t3.data).all isUpperHexDigit) = true
    rw [Bool.and_eq_true, beq_iff_eq]
    constructor
    · rw [List.length_append, List.length_append, hr.2, hg.2, hb.2]
    · rw [List.all_append, List.all_append, Bool.and_eq_true, Bool.and_eq_true]
      exact ⟨⟨hr.1, hg.1⟩, hb.1⟩

/-- C3.  For channels in `[0,1]`, `rgbaToHex` returns `#` followed by
exactly six uppercase hex digits, each channel scaled by 255, rounded
to nearest, clamped to `[0,255]` and rendered as two hex digits in
order R, G, B (the spec's rule, `specRgbaToHex`); in particular
`{r:0.2, g:0.4, b:0.9}` gives `#3366E6` and `{r:1, g:0, b:0}` gives
`#FF0000`. -/
theorem C3_rgba_to_hex :
    (∀ r g b : ℚ, 0 ≤ r → r ≤ 1 → 0 ≤ g → g ≤ 1 → 0 ≤ b → b ≤ 1 →
      rgbaToHex (Val.obj [("r", .num r), ("g", .num g), ("b", .num b),
          ("a", .num 1)]) = specRgbaToHex r g b ∧
      sixUpperHex (rgbaToHex (Val.obj [("r", .num r), ("g", .num g),
          ("b", .num b), ("a", .num 1)])) = true) ∧
    rgbaToHex (Val.obj [("r", .num 0.2), ("g", .num 0.4), ("b", .num 0.9),
        ("a", .num 1)]) = "#3366E6" ∧
    rgbaToHex (Val.obj [("r", .num 1), ("g", .num 0), ("b", .num 0),
        ("a", .num 1)]) = "#FF0000" := by
  have hround : ∀ (q : ℚ) (n : ℤ), (n : ℚ) ≤ q * 255 + 1 / 2 →
      q * 255 + 1 / 2 < n + 1 → jsRound (q * 255) = n := by
    intro q n h1 h2
    unfold jsRound
    rw [Int.floor_eq_iff]
    exact ⟨h1, h2⟩
  have main : ∀ r g b : ℚ, 0 ≤ r → r ≤ 1 → 0 ≤ g → g ≤ 1 → 0 ≤ b → b ≤ 1 →
      rgbaToHex (Val.obj [("r", .num r), ("g", .num g), ("b", .num b),
          ("a", .num 1)]) = specRgbaToHex r g b ∧
      sixUpperHex (rgbaToHex (Val.obj [("r", .num r), ("g", .num g),
          ("b", .num b), ("a", .num 1)])) = true := by
    intro r g b hr0 hr1 hg0 hg1 hb0 hb1
    obtain ⟨he, hs⟩ := rgbaToHex_spec r g b hr0 hr1 hg0 hg1 hb0 hb1
    exact ⟨he, by rw [he]; exact hs⟩
  refine ⟨main, ?_, ?_⟩
  · have he := (main 0.2 0.4 0.9 (by norm_num) (by norm_num) (by norm_num)
      (by norm_num) (by norm_num) (by norm_num)).1
    rw [he]
    unfold specRgbaToHex
    rw [hround 0.2 51 (by norm_num) (by norm_num),
      hround 0.4 102 (by norm_num) (by norm_num),
      hround 0.9 230 (by norm_num) (by norm_num)]
    decide
  · have he := (main 1 0 0 (by norm_num) (by norm_num) (by norm_num)
      (by norm_num) (by norm_num) (by norm_num)).1
    rw [he]
    unfold specRgbaToHex
    rw [hround 1 255 (by norm_num) (by norm_num),
      hround 0 0 (by norm_num) (by norm_num)]
    decide

/-- C3 witness: the general statement applied at the concrete channel
triple `(0.5, 0.5, 0.5)`. -/
theorem C3_rgba_to_hex_witness :
    rgbaToHex (Val.obj [("r", .num 0.5), ("g", .num 0.5), ("b", .num 0.5),
        ("a", .num 1)]) = specRgbaToHex 0.5 0.5 0.5 :=
  (C3_rgba_to_hex.1 0.5 0.5 0.5 (by norm_num) (by norm_num) (by norm_num)
    (by norm_num) (by norm_num) (by norm_num)).1

/-- C7.  A page id present in exactly one input yields exactly one
record: its whole visit in the new-map pass is the single page-level
ADDED record (when only in the new file), its whole visit in the
removed-pages pass is the single page-level REMOVED record (when only
in the old file), both records are in the output, and every output
record that is not a page-level record comes from diffing a page
present in both files — so no record is emitted for any node inside a
one-sided page. -/
theorem C7_one_sided_pages (old new : FFile) :
    (∀ X p, alookup (pagesMap new) X = some p →
      alookup (pagesMap old) X = none →
        pagesContribution (pagesMap old) (X, p) = [mkPageAdded p] ∧
        (mkPageAdded p).kind = .ADDED ∧ (mkPageAdded p).property = "page" ∧
        mkPageAdded p ∈ diffSnapshots old new) ∧
    (∀ X p, alookup (pagesMap old) X = some p →
      alookup (pagesMap new) X = none →
        pageRemovedCheck (pagesMap new) (X, p) = [mkPageRemoved p] ∧
        (mkPageRemoved p).kind = .REMOVED ∧ (mkPageRemoved p).property = "page" ∧
        mkPageRemoved p ∈ diffSnapshots old new) ∧
    (∀ c ∈ diffSnapshots old new, c.property ≠ "page" →
      ∃ pid po pn, alookup (pagesMap old) pid = some po ∧
        alookup (pagesMap new) pid = some pn ∧ c ∈ diffPage po pn) := by
  refine ⟨?_, ?_, ?_⟩
  · intro X p hn ho
    have hc : pagesContribution (pagesMap old) (X, p) = [mkPageAdded p] := by
      unfold pagesContribution
      rw [ho]
    refine ⟨hc, rfl, rfl, ?_⟩
    unfold diffSnapshots
    rw [List.mem_append]
    left
    exact List.mem_flatMap.mpr ⟨(X, p), mem_of_alookup_eq_some hn,
      by rw [hc]; exact List.mem_singleton.mpr rfl⟩
  · intro X p ho hn
    have hc : pageRemovedCheck (pagesMap new) (X, p) = [mkPageRemoved p] := by
      unfold pageRemovedCheck
      simp [hn]
    refine ⟨hc, rfl, rfl, ?_⟩
    unfold diffSnapshots
    rw [List.mem_append]
    right
    exact List.mem_flatMap.mpr ⟨(X, p), mem_of_alookup_eq_some ho,
      by rw [hc]; exact List.mem_singleton.mpr rfl⟩
  · intro c hc hnp
    unfold diffSnapshots at hc
    rcases List.mem_append.mp hc with h1 | h2
    · rcases List.mem_flatMap.mp h1 with ⟨e, hemem, he⟩
      unfold pagesContribution at he
      rcases hm : alookup (pagesMap old) e.1 with _ | po
      · rw [hm] at he
        obtain rfl := List.mem_singleton.mp he
        exact absurd rfl hnp
      · rw [hm] at he
        have hn : alookup (pagesMap new) e.1 = some e.2 := by
          unfold pagesMap at hemem ⊢
          exact alookup_self_of_mem_jsMapOf hemem
        exact ⟨e.1, po, e.2, hm, hn, he⟩
    · rcases List.mem_flatMap.mp h2 with ⟨e, hemem, he⟩
      unfold pageRemovedCheck at he
      by_cases hs : (alookup (pagesMap new) e.1).isSome
      · simp [hs] at he
      · simp only [hs, if_false] at he
        obtain rfl := List.mem_singleton.mp he
        exact absurd rfl hnp

/-- C7 witness: a concrete file pair with one page only in the new
file; its contribution is the single ADDED page record, present in the
diff. -/
theorem C7_one_sided_pages_witness :
    mkPageAdded (Page.mk "0:9" "Settings" JNodes.nil) ∈
      diffSnapshots
        (FFile.mk "F" "v1" "t" [Page.mk "0:1" "Main" JNodes.nil])
        (FFile.mk "F" "v2" "t2" [Page.mk "0:1" "Main" JNodes.nil,
          Page.mk "0:9" "Settings" JNodes.nil]) :=
  ((C7_one_sided_pages
      (FFile.mk "F" "v1" "t" [Page.mk "0:1" "Main" JNodes.nil])
      (FFile.mk "F" "v2" "t2" [Page.mk "0:1" "Main" JNodes.nil,
        Page.mk "0:9" "Settings" JNodes.nil])).1
    "0:9" (Page.mk "0:9" "Settings" JNodes.nil) rfl rfl).2.2.2

/-- C5.  Add/remove symmetry: when a page `pid` is present in both
documents, a node id `X` that is in the old page's identity map but
not the new one yields the node-level REMOVED record in
`diffSnapshots A B` AND the node-level ADDED record for the same id
`X` (same node entry) in `diffSnapshots B A`; applying the theorem
with `A` and `B` swapped gives the converse direction. -/
theorem C5_add_remove_symmetry (A B : FFile) (pid : String) (pa pb : Page)
    (hpa : alookup (pagesMap A) pid = some pa)
    (hpb : alookup (pagesMap B) pid = some pb)
    (X : Option Val) (e : JNode × String)
    (hX : alookup (buildNodeMap pa.children "") X = some e)
    (hXn : alookup (buildNodeMap pb.children "") X = none) :
    mkNodeRemoved (if pb.name ≠ "" then pb.name else pa.name) X e ∈
      diffSnapshots A B ∧
    mkNodeAdded (if pa.name ≠ "" then pa.name else pb.name) X e ∈
      diffSnapshots B A := by
  constructor
  · have h1 : mkNodeRemoved (if pb.name ≠ "" then pb.name else pa.name) X e ∈
        diffPage pa pb := by
      simp only [diffPage]
      rw [List.mem_append]
      left
      refine List.mem_flatMap.mpr ⟨(X, e), mem_of_alookup_eq_some hX, ?_⟩
      rw [hXn]
      exact List.mem_singleton.mpr rfl
    unfold diffSnapshots
    rw [List.mem_append]
    left
    refine List.mem_flatMap.mpr ⟨(pid, pb), mem_of_alookup_eq_some hpb, ?_⟩
    unfold pagesContribution
    rw [hpa]
    exact h1
  · have h2 : mkNodeAdded (if pa.name ≠ "" then pa.name else pb.name) X e ∈
        diffPage pb pa := by
      simp only [diffPage]
      rw [List.mem_append]
      right
      refine List.mem_flatMap.mpr ⟨(X, e), mem_of_alookup_eq_some hX, ?_⟩
      have hs : (alookup (buildNodeMap pb.children "") X).isSome = false := by
        rw [hXn]
        rfl
      rw [hs]
      exact List.mem_singleton.mpr rfl
    unfold diffSnapshots
    rw [List.mem_append]
    left
    refine List.mem_flatMap.mpr ⟨(pid, pa), mem_of_alookup_eq_some hpa, ?_⟩
    unfold pagesContribution
    rw [hpb]
    exact h2

/-- C5 witness: a node (`id "1:2"`) present only in the old version of
a shared page produces the REMOVED record in one direction and the
ADDED record for the same id in the other. -/
theorem C5_add_remove_symmetry_witness :
    mkNodeRemoved "Home" (some (.str "1:2"))
      (JNode.mk [("id", .str "1:2"), ("name", .str "CTA Button"),
        ("type", .str "FRAME")] .nil, "CTA Button") ∈
      diffSnapshots
        (FFile.mk "F" "v1" "t" [Page.mk "0:1" "Home"
          (jlist [JNode.mk [("id", .str "1:2"), ("name", .str "CTA Button"),
            ("type", .str "FRAME")] .nil])])
        (FFile.mk "F" "v2" "t2" [Page.mk "0:1" "Home" JNodes.nil]) ∧
    mkNodeAdded "Home" (some (.str "1:2"))
      (JNode.mk [("id", .str "1:2"), ("name", .str "CTA Button"),
        ("type", .str "FRAME")] .nil, "CTA Button") ∈
      diffSnapshots
        (FFile.mk "F" "v2" "t2" [Page.mk "0:1" "Home" JNodes.nil])
        (FFile.mk "F" "v1" "t" [Page.mk "0:1" "Home"
          (jlist [JNode.mk [("id", .str "1:2"), ("name", .str "CTA Button"),
            ("type", .str "FRAME")] .nil])]) :=
  C5_add_remove_symmetry
    (FFile.mk "F" "v1" "t" [Page.mk "0:1" "Home"
      (jlist [JNode.mk [("id", .str "1:2"), ("name", .str "CTA Button"),
        ("type", .str "FRAME")] .nil])])
    (FFile.mk "F" "v2" "t2" [Page.mk "0:1" "Home" JNodes.nil])
    "0:1"
    (Page.mk "0:1" "Home"
      (jlist [JNode.mk [("id", .str "1:2"), ("name", .str "CTA Button"),
        ("type", .str "FRAME")] .nil]))
    (Page.mk "0:1" "Home" JNodes.nil)
    rfl rfl (some (.str "1:2"))
    (JNode.mk [("id", .str "1:2"), ("name", .str "CTA Button"),
      ("type", .str "FRAME")] .nil, "CTA Button")
    rfl rfl

theorem akeys_append {κ β : Type} (a b : List (κ × β)) :
    akeys (a ++ b) = akeys a ++ akeys b := by
  simp [akeys]

/-- A `Map` built from a duplicate-free pair sequence is that sequence. -/
theorem jsMapOf_eq_self {κ β : Type} [DecidableEq κ] {l : List (κ × β)}
    (nd : (akeys l).Nodup) : jsMapOf l = l := by
  suffices h : ∀ acc, (akeys (acc ++ l)).Nodup →
      l.foldl (fun m kv => jsInsert m kv.1 kv.2) acc = acc ++ l by
    simpa [jsMapOf] using h [] (by simpa)
  clear nd
  induction l with
  | nil => intro acc _; simp
  | cons kv rest ih =>
    intro acc nd2
    have hk : alookup acc kv.1 = none := by
      rw [alookup_eq_none_iff]
      intro hmem
      rw [akeys_append] at nd2
      rcases List.nodup_append.mp nd2 with ⟨_, _, hdisj⟩
      exact hdisj hmem (by simp [akeys])
    have hins : jsInsert acc kv.1 kv.2 = acc ++ [kv] := by
      unfold jsInsert
      rw [hk]
      rfl
    simp only [List.foldl_cons, hins]
    rw [ih (acc ++ [kv]) (by simpa using nd2)]
    simp

theorem nodeEntriesList_eq_flatMap : ∀ (cs : JNodes) (p : String),
    nodeEntriesList cs p = cs.toList.flatMap (fun n => nodeEntries n p)
  | .nil, _ => rfl
  | .cons n rest, p => by
      simp [nodeEntriesList, JNodes.toList, nodeEntriesList_eq_flatMap rest p]

/-- Moving nodes to other sibling indices permutes the identity-map
entry sequence up to children: the projected entry sequences are
permutations of one another. -/
theorem treeMoved_entries {c1 c2 : JNodes} (h : TreeMoved c1 c2) :
    ∀ pp : String,
      ((nodeEntriesList c1 pp).map projEntry).Perm
        ((nodeEntriesList c2 pp).map projEntry) := by
  induction h with
  | nil => intro pp; exact List.Perm.refl _
  | cons ps hcs hl ihcs ihl =>
    intro pp
    simp only [nodeEntriesList, nodeEntries, List.map_append, List.map_cons,
      projEntry, JNode.props]
    exact (((ihcs _).cons _).append (ihl pp))
  | swap a b l =>
    intro pp
    simp only [nodeEntriesList, List.map_append]
    rw [← List.append_assoc, ← List.append_assoc]
    exact List.Perm.append_right _ List.perm_append_comm
  | trans h1 h2 ih1 ih2 => intro pp; exact (ih1 pp).trans (ih2 pp)

theorem akeys_map_projEntry (l : List (Option Val × (JNode × String))) :
    (l.map projEntry).map Prod.fst = akeys l := by
  simp [akeys, projEntry, Function.comp]

/-- Lookups in the two identity maps of a moved page agree on
everything except children: keys, node properties and display paths
coincide. -/
theorem alookup_projVal_of_moved {l1 l2 : List (Option Val × (JNode × String))}
    (hperm : (l1.map projEntry).Perm (l2.map projEntry))
    (nd1 : (akeys l1).Nodup) (k : Option Val) :
    (alookup l1 k).map projVal = (alookup l2 k).map projVal := by
  have hkeys : (akeys l1).Perm (akeys l2) := by
    rw [← akeys_map_projEntry l1, ← akeys_map_projEntry l2]
    exact hperm.map Prod.fst
  have nd2 : (akeys l2).Nodup := hkeys.nodup_iff.mp nd1
  rcases h1 : alookup l1 k with _ | e1
  · have : k ∉ akeys l1 := (alookup_eq_none_iff l1 k).mp h1
    have h2 : alookup l2 k = none := by
      rw [alookup_eq_none_iff]
      exact fun hm => this (hkeys.mem_iff.mpr hm)
    rw [h2]
  · have hm1 : (k, e1) ∈ l1 := mem_of_alookup_eq_some h1
    have hmp : (k, projVal e1) ∈ l2.map projEntry := by
      apply hperm.mem_iff.mp
      exact List.mem_map.mpr ⟨(k, e1), hm1, rfl⟩
    rcases List.mem_map.mp hmp with ⟨⟨k2, e2⟩, hm2, hpe⟩
    have hk2 : k2 = k := congrArg Prod.fst hpe
    subst hk2
    have h2 : alookup l2 k2 = some e2 := alookup_of_mem_nodup nd2 hm2
    rw [h2]
    have : projVal e2 = projVal e1 := by
      have := congrArg Prod.snd hpe
      simpa [projEntry, projVal] using this
    simp [this]

/-- Nodes with the same properties compare without records (children
are never compared as a value). -/
theorem compareNodes_eq_nil_of_props_eq {n1 n2 : JNode}
    (h : n1.props = n2.props) (path pageName : String) :
    compareNodes n1 n2 path pageName = [] := by
  unfold compareNodes
  exact flatMap_eq_nil_of_forall (fun k _ =>
    compareKey_eq_nil_of_lookup_eq (by rw [h]) path pageName)

/-- A page with its nodes moved to other sibling indices diffs to the
empty record list. -/
theorem diffPage_eq_nil_of_moved {po pn : Page}
    (hmv : TreeMoved po.children pn.children)
    (hnd : (akeys (nodeEntriesList po.children "")).Nodup) :
    diffPage po pn = [] := by
  have hperm := treeMoved_entries hmv ""
  have hndNew : (akeys (nodeEntriesList pn.children "")).Nodup := by
    have hkeys : (akeys (nodeEntriesList po.children "")).Perm
        (akeys (nodeEntriesList pn.children "")) := by
      rw [← akeys_map_projEntry, ← akeys_map_projEntry]
      exact hperm.map Prod.fst
    exact hkeys.nodup_iff.mp hnd
  have hmaps : ∀ k, (alookup (buildNodeMap po.children "") k).map projVal =
      (alookup (buildNodeMap pn.children "") k).map projVal := by
    intro k
    unfold buildNodeMap
    rw [alookup_jsMapOf_of_nodup hnd, alookup_jsMapOf_of_nodup hndNew]
    exact alookup_projVal_of_moved hperm hnd k
  simp only [diffPage]
  rw [List.append_eq_nil]
  constructor
  · apply flatMap_eq_nil_of_forall
    intro e he
    have h1 : alookup (buildNodeMap po.children "") e.1 = some e.2 := by
      simp only [buildNodeMap] at he ⊢
      exact alookup_self_of_mem_jsMapOf he
    have h2 := hmaps e.1
    rw [h1] at h2
    rcases hl2 : alookup (buildNodeMap pn.children "") e.1 with _ | e2
    · rw [hl2] at h2
      simp at h2
    · rw [hl2] at h2
      simp only [Option.map] at h2
      rw [Option.some.injEq] at h2
      simp only [projVal, Prod.mk.injEq] at h2
      exact compareNodes_eq_nil_of_props_eq h2.1 _ _
  · apply flatMap_eq_nil_of_forall
    intro e he
    have h1 : alookup (buildNodeMap pn.children "") e.1 = some e.2 := by
      simp only [buildNodeMap] at he ⊢
      exact alookup_self_of_mem_jsMapOf he
    have h2 := hmaps e.1
    rw [h1] at h2
    rcases hl2 : alookup (buildNodeMap po.children "") e.1 with _ | e2
    · rw [hl2] at h2
      simp at h2
    · simp [hl2]

/-- Looking up a moved page's id in the old page list finds its old
version. -/
theorem lookup_moved {oldPages newPages : List Page}
    (hrel : List.Forall₂ pageMoved oldPages newPages)
    (hids : (oldPages.map Page.id).Nodup) :
    ∀ pn ∈ newPages, ∃ po,
      alookup (oldPages.map (fun p => (p.id, p))) pn.id = some po ∧
      pageMoved po pn := by
  induction hrel with
  | nil => intro pn h; simp at h
  | cons r hrest ih =>
    rename_i po0 pn0 oldRest newRest
    intro pn hpn
    rcases List.mem_cons.mp hpn with rfl | hmem
    · refine ⟨po0, ?_, r⟩
      simp [alookup, r.1]
    · simp only [List.map_cons, List.nodup_cons] at hids
      obtain ⟨po, hlk, hr⟩ := ih hids.2 pn hmem
      refine ⟨po, ?_, hr⟩
      have hne : po0.id ≠ pn.id := by
        intro he
        apply hids.1
        have hm : pn.id ∈ akeys (oldRest.map (fun p => (p.id, p))) := by
          rw [← alookup_isSome_iff, hlk]
          rfl
        rw [he]
        simpa [akeys, Function.comp] using hm
      simpa [alookup, hne] using hlk

theorem forall₂_moved_ids {l1 l2 : List Page}
    (h : List.Forall₂ pageMoved l1 l2) :
    l2.map Page.id = l1.map Page.id := by
  induction h with
  | nil => rfl
  | cons r _ ih => simp [r.1, ih]

/-- C6.  Identity over position: moving nodes to different sibling
indices inside their pages — at any depth, without changing ids or
properties — produces no change record at all, in particular no ADDED,
REMOVED or MODIFIED record for any moved node. -/
theorem C6_identity_over_position (old new : FFile)
    (hids : (old.pages.map Page.id).Nodup)
    (hrel : List.Forall₂ pageMoved old.pages new.pages) :
    diffSnapshots old new = [] := by
  have hmap : new.pages.map Page.id = old.pages.map Page.id :=
    forall₂_moved_ids hrel
  have hkeys_old : akeys (old.pages.map (fun p => (p.id, p))) =
      old.pages.map Page.id := by
    simp [akeys, Function.comp]
  have hkeys_new : akeys (new.pages.map (fun p => (p.id, p))) =
      new.pages.map Page.id := by
    simp [akeys, Function.comp]
  have hpm_old : pagesMap old = old.pages.map (fun p => (p.id, p)) := by
    unfold pagesMap
    exact jsMapOf_eq_self (by rw [hkeys_old]; exact hids)
  have hpm_new : pagesMap new = new.pages.map (fun p => (p.id, p)) := by
    unfold pagesMap
    exact jsMapOf_eq_self (by rw [hkeys_new, hmap]; exact hids)
  unfold diffSnapshots
  rw [List.append_eq_nil]
  constructor
  · apply flatMap_eq_nil_of_forall
    intro e he
    rw [hpm_new] at he
    rcases List.mem_map.mp he with ⟨pn, hpn, rfl⟩
    obtain ⟨po, hlk, hr⟩ := lookup_moved hrel hids pn hpn
    unfold pagesContribution
    rw [hpm_old, hlk]
    exact diffPage_eq_nil_of_moved hr.2.2.1 hr.2.2.2
  · apply flatMap_eq_nil_of_forall
    intro e he
    rw [hpm_old] at he
    rcases List.mem_map.mp he with ⟨po, hpo, rfl⟩
    unfold pageRemovedCheck
    have hsome : (alookup (pagesMap new) po.id).isSome := by
      rw [hpm_new, alookup_isSome_iff, hkeys_new, hmap]
      exact List.mem_map.mpr ⟨po, hpo, rfl⟩
    simp [hsome]

/-- C6 witness: moving a nested node to the other sibling index (the
two children of the frame are swapped) yields an empty diff. -/
theorem C6_identity_over_position_witness :
    diffSnapshots
      (FFile.mk "F" "v1" "t" [Page.mk "0:1" "Home"
        (jlist [JNode.mk [("id", .str "1:0"), ("name", .str "Frame")]
          (jlist [JNode.mk [("id", .str "1:1"), ("name", .str "Header")] .nil,
            JNode.mk [("id", .str "1:2"), ("name", .str "Hero")] .nil])])])
      (FFile.mk "F" "v2" "t2" [Page.mk "0:1" "Home"
        (jlist [JNode.mk [("id", .str "1:0"), ("name", .str "Frame")]
          (jlist [JNode.mk [("id", .str "1:2"), ("name", .str "Hero")] .nil,
            JNode.mk [("id", .str "1:1"), ("name", .str "Header")] .nil])])]) = [] := by
  apply C6_identity_over_position
  · decide
  · refine List.Forall₂.cons ⟨rfl, rfl, ?_, ?_⟩ List.Forall₂.nil
    · exact TreeMoved.cons _ (TreeMoved.swap _ _ _) TreeMoved.nil
    · decide


theorem alookup_flatMap_none {f : String → List (String × Val)}
    {l : List String} {k0 : String}
    (h : ∀ key ∈ l, alookup (f key) k0 = none) :
    alookup (l.flatMap f) k0 = none := by
  induction l with
  | nil => rfl
  | cons x rest ih =>
    rw [List.flatMap_cons, alookup_append, h x (List.mem_cons_self x rest),
      ih (fun y hy => h y (List.mem_cons_of_mem x hy))]

/-- Looking up `k0` in the filtered property list reduces to the
contribution of the key `k0` itself, when no other key's contribution
can bind `k0`. -/
theorem alookup_flatMap_single {f : String → List (String × Val)}
    {l : List String} {k0 : String} (hnd : l.Nodup) (hmem : k0 ∈ l)
    (h0 : ∀ key ∈ l, key ≠ k0 → alookup (f key) k0 = none) :
    alookup (l.flatMap f) k0 = alookup (f k0) k0 := by
  induction l with
  | nil => simp at hmem
  | cons x rest ih =>
    rw [List.nodup_cons] at hnd
    rcases List.mem_cons.mp hmem with rfl | hmem2
    · rw [List.flatMap_cons, alookup_append]
      have hrest : alookup (rest.flatMap f) k0 = none :=
        alookup_flatMap_none (fun y hy =>
          h0 y (List.mem_cons_of_mem k0 hy) (fun he => hnd.1 (he ▸ hy)))
      rcases hx : alookup (f k0) k0 with _ | v
      · rw [hrest]
      · rfl
    · have hne : x ≠ k0 := fun he => hnd.1 (he ▸ hmem2)
      rw [List.flatMap_cons, alookup_append,
        h0 x (List.mem_cons_self x rest) hne,
        ih hnd.2 hmem2 (fun y hy h => h0 y (List.mem_cons_of_mem x hy) h)]

/-- A key different from `k0` contributes no binding named `k0` (the
only renamed output, `bounds`, is excluded). -/
theorem alookup_filterProp_ne (ps : List (String × Val)) (key k0 : String)
    (hne : key ≠ k0) (hb : k0 ≠ "bounds") :
    alookup (filterProp ps key) k0 = none := by
  have hb2 : ¬ ("bounds" = k0) := fun hh => hb hh.symm
  have hne2 : ¬ (key = k0) := hne
  unfold filterProp
  rcases alookup ps key with _ | v
  · rfl
  · dsimp only
    by_cases h1 : key = "children"
    · rw [if_pos h1]; rfl
    rw [if_neg h1]
    by_cases h2 : key = "visible" ∧ v = Val.bool true
    · rw [if_pos h2]; rfl
    rw [if_neg h2]
    by_cases h3 : key = "opacity" ∧ v = Val.num 1
    · rw [if_pos h3]; rfl
    rw [if_neg h3]
    by_cases h4 : key = "fills"
    · rw [if_pos h4]
      have hf : ¬ ("fills" = k0) := h4 ▸ hne2
      rcases hs : simplifyFills v with _ | l
      · simp [hs]
        rfl
      · simp only [hs]
        split_ifs <;> simp [alookup, hf]
    rw [if_neg h4]
    by_cases h5 : key = "strokes"
    · rw [if_pos h5]
      have hf : ¬ ("strokes" = k0) := h5 ▸ hne2
      rcases hs : simplifyFills v with _ | l
      · simp [hs]
        rfl
      · simp only [hs]
        split_ifs <;> simp [alookup, hf]
    rw [if_neg h5]
    by_cases h6 : key = "backgroundColor" ∧ jsTruthy (some v) = true
    · rw [if_pos h6]
      have hf : ¬ ("backgroundColor" = k0) := h6.1 ▸ hne2
      simp [alookup, hf]
    rw [if_neg h6]
    by_cases h7 : key = "absoluteBoundingBox" ∧ jsTruthy (some v) = true
    · rw [if_pos h7]
      simp [alookup, hb2]
    rw [if_neg h7]
    by_cases h8 : key = "strokeWeight" ∧ v = Val.num 0
    · rw [if_pos h8]; rfl
    rw [if_neg h8]
    by_cases h9 : key = "cornerRadius" ∧ v = Val.num 0
    · rw [if_pos h9]; rfl
    rw [if_neg h9]
    by_cases h10 : key = "itemSpacing" ∧ v = Val.num 0
    · rw [if_pos h10]; rfl
    rw [if_neg h10]
    by_cases h11 : key = "paddingLeft" ∧ v = Val.num 0
    · rw [if_pos h11]; rfl
    rw [if_neg h11]
    by_cases h12 : key = "paddingRight" ∧ v = Val.num 0
    · rw [if_pos h12]; rfl
    rw [if_neg h12]
    by_cases h13 : key = "paddingTop" ∧ v = Val.num 0
    · rw [if_pos h13]; rfl
    rw [if_neg h13]
    by_cases h14 : key = "paddingBottom" ∧ v = Val.num 0
    · rw [if_pos h14]; rfl
    rw [if_neg h14]
    by_cases h15 : key = "layoutMode" ∧ v = Val.str "NONE"
    · rw [if_pos h15]; rfl
    rw [if_neg h15]
    simp [alookup, hne2]

/-- Reading an allow-listed key (other than the renamed `bounds`) from
a filtered node reads the key's own contribution. -/
theorem alookup_filterNode (ps : List (String × Val)) (cs : JNodes)
    (k0 : String) (hmem : k0 ∈ KEEP_PROPERTIES) (hb : k0 ≠ "bounds") :
    alookup (filterNode (.mk ps cs)).props k0 = alookup (filterProp ps k0) k0 := by
  show alookup (KEEP_PROPERTIES.flatMap (filterProp ps)) k0 = _
  exact alookup_flatMap_single (by decide) hmem
    (fun key _ h => alookup_filterProp_ne ps key k0 h hb)

/-- C8.  For a raw node whose `fills` (resp. `strokes`) is a list of
(object) paint entries, the filtered node's `fills` (resp. `strokes`)
is exactly the entries whose `visible` flag is not strictly `false`,
each simplified, and the key is absent exactly when that filtered list
is empty — in particular when the raw list is empty.  (The object
hypothesis scopes the statement to schema-conforming entries, on which
the source's entry accesses are defined.) -/
theorem C8_fills_strokes_filter (ps : List (String × Val)) (cs : JNodes) :
    (∀ l, alookup ps "fills" = some (.arr l) →
      (∀ f ∈ l, ∃ kvs, f = Val.obj kvs) →
      alookup (filterNode (.mk ps cs)).props "fills" =
        (if l.filter keepFill = [] then none
         else some (.arr ((l.filter keepFill).map simplifyFillEntry)))) ∧
    (∀ l, alookup ps "strokes" = some (.arr l) →
      (∀ f ∈ l, ∃ kvs, f = Val.obj kvs) →
      alookup (filterNode (.mk ps cs)).props "strokes" =
        (if l.filter keepFill = [] then none
         else some (.arr ((l.filter keepFill).map simplifyFillEntry)))) ∧
    (∀ f, keepFill f = true ↔ valField f "visible" ≠ some (.bool false)) := by
  refine ⟨?_, ?_, ?_⟩
  · intro l hl _
    rw [alookup_filterNode ps cs "fills" (by decide) (by decide)]
    unfold filterProp
    rw [hl]
    rcases l with _ | ⟨f, rest⟩
    · rfl
    · show alookup
        (match simplifyFills (.arr (f :: rest)) with
         | some l2 => if l2 ≠ [] then [("fills", Val.arr l2)] else []
         | none => []) "fills" = _
      unfold simplifyFills
      rcases hfl : (f :: rest).filter keepFill with _ | ⟨g, grest⟩
      · simp [hfl, alookup]
      · simp only [hfl, List.map_cons, ne_eq, reduceCtorEq,
          not_false_eq_true, if_true, if_pos]
        simp [alookup]
  · intro l hl _
    rw [alookup_filterNode ps cs "strokes" (by decide) (by decide)]
    unfold filterProp
    rw [hl]
    rcases l with _ | ⟨f, rest⟩
    · rfl
    · show alookup
        (match simplifyFills (.arr (f :: rest)) with
         | some l2 => if l2 ≠ [] then [("strokes", Val.arr l2)] else []
         | none => []) "strokes" = _
      unfold simplifyFills
      rcases hfl : (f :: rest).filter keepFill with _ | ⟨g, grest⟩
      · simp [hfl, alookup]
      · simp only [hfl, List.map_cons, ne_eq, reduceCtorEq,
          not_false_eq_true, if_true, if_pos]
        simp [alookup]
  · intro f
    unfold keepFill
    split_ifs with h <;> simp [h]

/-- C8 witness: a node with one hidden and one visible fill keeps
exactly the visible one, simplified. -/
theorem C8_fills_strokes_filter_witness :
    alookup (filterNode (.mk
      [("id", .str "1:1"),
       ("fills", .arr
         [Val.obj [("type", .str "SOLID"), ("visible", .bool false)],
          Val.obj [("type", .str "SOLID")]])] .nil)).props "fills" =
      some (.arr [Val.obj [("type", .str "SOLID")]]) := by
  have h := (C8_fills_strokes_filter
    [("id", .str "1:1"),
     ("fills", .arr
       [Val.obj [("type", .str "SOLID"), ("visible", .bool false)],
        Val.obj [("type", .str "SOLID")]])] .nil).1
    [Val.obj [("type", .str "SOLID"), ("visible", .bool false)],
     Val.obj [("type", .str "SOLID")]]
    rfl
    (by intro f hf
        rcases List.mem_cons.mp hf with rfl | hf2
        · exact ⟨_, rfl⟩
        · rcases List.mem_cons.mp hf2 with rfl | hf3
          · exact ⟨_, rfl⟩
          · cases hf3)
  rw [h]
  decide

theorem flatMap_congr {α β : Type} {l : List α} {f g : α → List β}
    (h : ∀ x ∈ l, f x = g x) : l.flatMap f = l.flatMap g := by
  induction l with
  | nil => rfl
  | cons x rest ih =>
    rw [List.flatMap_cons, List.flatMap_cons, h x (by simp),
      ih (fun y hy => h y (by simp [hy]))]

/-- `filterProp` reads only the key's value. -/
theorem filterProp_congr {ps1 ps2 : List (String × Val)} {key : String}
    (h : alookup ps1 key = alookup ps2 key) :
    filterProp ps1 key = filterProp ps2 key := by
  unfold filterProp
  rw [h]

/-- Deleting the key `k0` leaves lookups of other keys unchanged. -/
theorem alookup_filter_ne {ps : List (String × Val)} {k0 key : String}
    (h : key ≠ k0) :
    alookup (ps.filter (fun kv => kv.1 != k0)) key = alookup ps key := by
  induction ps with
  | nil => rfl
  | cons kv rest ih =>
    by_cases h1 : kv.1 = key
    · have hb : (kv.1 != k0) = true := by
        rw [h1]
        simpa using h
      simp only [List.filter_cons, hb, if_true]
      simp [alookup, h1]
    · by_cases h2 : (kv.1 != k0) = true
      · simp [List.filter_cons, h2, alookup, h1, ih]
      · simp [List.filter_cons, h2, alookup, h1, ih]

/-- Deleting the key `k0` removes it from lookups. -/
theorem alookup_filter_self (ps : List (String × Val)) (k0 : String) :
    alookup (ps.filter (fun kv => kv.1 != k0)) k0 = none := by
  rw [alookup_eq_none_iff]
  intro hmem
  rcases List.mem_map.mp hmem with ⟨kv, hkv, hfst⟩
  rcases List.mem_filter.mp hkv with ⟨_, hne⟩
  rw [hfst] at hne
  simp at hne

/-- C9.  Idempotence of defaults: normalizing a node with `opacity`
assigned `1` gives the same canonical node as normalizing it with the
`opacity` property deleted; and each recognized default value —
`visible: true`, `opacity: 1`, `strokeWeight: 0`, `cornerRadius: 0`,
`itemSpacing: 0`, the four paddings `0`, `layoutMode: "NONE"` — is
absent from the normalized output. -/
theorem C9_default_omission (ps : List (String × Val)) (cs : JNodes) :
    (filterNode (.mk (jsInsert ps "opacity" (.num 1)) cs) =
      filterNode (.mk (ps.filter (fun kv => kv.1 != "opacity")) cs)) ∧
    (alookup ps "visible" = some (.bool true) →
      alookup (filterNode (.mk ps cs)).props "visible" = none) ∧
    (alookup ps "opacity" = some (.num 1) →
      alookup (filterNode (.mk ps cs)).props "opacity" = none) ∧
    (alookup ps "strokeWeight" = some (.num 0) →
      alookup (filterNode (.mk ps cs)).props "strokeWeight" = none) ∧
    (alookup ps "cornerRadius" = some (.num 0) →
      alookup (filterNode (.mk ps cs)).props "cornerRadius" = none) ∧
    (alookup ps "itemSpacing" = some (.num 0) →
      alookup (filterNode (.mk ps cs)).props "itemSpacing" = none) ∧
    (alookup ps "paddingLeft" = some (.num 0) →
      alookup (filterNode (.mk ps cs)).props "paddingLeft" = none) ∧
    (alookup ps "paddingRight" = some (.num 0) →
      alookup (filterNode (.mk ps cs)).props "paddingRight" = none) ∧
    (alookup ps "paddingTop" = some (.num 0) →
      alookup (filterNode (.mk ps cs)).props "paddingTop" = none) ∧
    (alookup ps "paddingBottom" = some (.num 0) →
      alookup (filterNode (.mk ps cs)).props "paddingBottom" = none) ∧
    (alookup ps "layoutMode" = some (.str "NONE") →
      alookup (filterNode (.mk ps cs)).props "layoutMode" = none) := by
  have habsent : ∀ (key : String), key ∈ KEEP_PROPERTIES → key ≠ "bounds" →
      ∀ v : Val, alookup ps key = some v →
      filterProp ps key = [] →
      alookup (filterNode (.mk ps cs)).props key = none := by
    intro key hmem hb v _ hempty
    rw [alookup_filterNode ps cs key hmem hb, hempty]
    rfl
  refine ⟨?_, ?_, ?_, ?_, ?_, ?_, ?_, ?_, ?_, ?_, ?_⟩
  · show JNode.mk (KEEP_PROPERTIES.flatMap
        (filterProp (jsInsert ps "opacity" (.num 1)))) (filterNodes cs) =
      JNode.mk (KEEP_PROPERTIES.flatMap
        (filterProp (ps.filter (fun kv => kv.1 != "opacity")))) (filterNodes cs)
    have hp : ∀ key ∈ KEEP_PROPERTIES,
        filterProp (jsInsert ps "opacity" (.num 1)) key =
        filterProp (ps.filter (fun kv => kv.1 != "opacity")) key := by
      intro key _
      by_cases hk : key = "opacity"
      · subst hk
        have h1 : alookup (jsInsert ps "opacity" (.num 1)) "opacity" =
            some (.num 1) := by
          rw [alookup_jsInsert, if_pos rfl]
        have h2 : alookup (ps.filter (fun kv => kv.1 != "opacity")) "opacity" =
            none := alookup_filter_self ps "opacity"
        unfold filterProp
        rw [h1, h2]
        rfl
      · apply filterProp_congr
        have hk2 : ¬ ("opacity" = key) := fun hh => hk hh.symm
        rw [alookup_jsInsert, if_neg hk2, alookup_filter_ne hk]
    rw [flatMap_congr hp]
  · intro h
    apply habsent "visible" (by decide) (by decide) _ h
    unfold filterProp
    rw [h]
    rfl
  · intro h
    apply habsent "opacity" (by decide) (by decide) _ h
    unfold filterProp
    rw [h]
    rfl
  · intro h
    apply habsent "strokeWeight" (by decide) (by decide) _ h
    unfold filterProp
    rw [h]
    rfl
  · intro h
    apply habsent "cornerRadius" (by decide) (by decide) _ h
    unfold filterProp
    rw [h]
    rfl
  · intro h
    apply habsent "itemSpacing" (by decide) (by decide) _ h
    unfold filterProp
    rw [h]
    rfl
  · intro h
    apply habsent "paddingLeft" (by decide) (by decide) _ h
    unfold filterProp
    rw [h]
    rfl
  · intro h
    apply habsent "paddingRight" (by decide) (by decide) _ h
    unfold filterProp
    rw [h]
    rfl
  · intro h
    apply habsent "paddingTop" (by decide) (by decide) _ h
    unfold filterProp
    rw [h]
    rfl
  · intro h
    apply habsent "paddingBottom" (by decide) (by decide) _ h
    unfold filterProp
    rw [h]
    rfl
  · intro h
    apply habsent "layoutMode" (by decide) (by decide) _ h
    unfold filterProp
    rw [h]
    rfl

/-- C9 witness: on a concrete node, setting `opacity` to 1 and
deleting `opacity` normalize identically, and a default-valued
`visible: true` is absent from the output. -/
theorem C9_default_omission_witness :
    (filterNode (.mk (jsInsert
        [("id", .str "1:1"), ("visible", .bool true)] "opacity" (.num 1)) .nil) =
      filterNode (.mk ([("id", .str "1:1"), ("visible", .bool true)].filter
        (fun kv => kv.1 != "opacity")) .nil)) ∧
    alookup (filterNode (.mk
      [("id", .str "1:1"), ("visible", .bool true)] .nil)).props "visible" =
      none :=
  ⟨(C9_default_omission [("id", .str "1:1"), ("visible", .bool true)] .nil).1,
    (C9_default_omission [("id", .str "1:1"), ("visible", .bool true)] .nil).2.1
      rfl⟩

end DesignRadar
